import Mathlib

/-!
Verification of the HITS (hubs and authorities) solver specification.

The solver is modelled from the specification's §4.1 algorithm: a directed
graph is a vertex count together with a directed edge list; one round first
recomputes every authority score from hub scores of in-neighbors, then every
hub score from the just-computed authority scores of out-neighbors, L2
normalizes both vectors (leaving a zero-norm vector untouched), and tests the
L1 distance of the hub vector against `numVerts * tolerance`.  The solver
validates the graph before iterating and reports non-convergence after
`max_iterations` rounds by an error carrying the last computed state.

Score vectors are total functions `ℕ → ℝ`; only indices below `numVerts`
are meaningful.  A computable rational "shadow" of the iteration (direction
vectors; normalization is scale invariant) supports exact evaluation of
concrete runs, including the 34-vertex karate-club benchmark.
-/

namespace HITS

/-- Modelled from the spec: a directed graph, `numVerts` vertices in the dense
namespace `[0, numVerts)` plus a directed edge list `(src, dst)`. -/
structure Graph where
  numVerts : ℕ
  edges : List (ℕ × ℕ)

/-- In-neighbors of `v`: sources of the edges into `v`, in edge-list order. -/
def inNbrs (g : Graph) (v : ℕ) : List ℕ :=
  (g.edges.filter (fun e => e.2 == v)).map (fun e => e.1)

/-- Out-neighbors of `v`: destinations of the edges out of `v`, in edge-list order. -/
def outNbrs (g : Graph) (v : ℕ) : List ℕ :=
  (g.edges.filter (fun e => e.1 == v)).map (fun e => e.2)

/-- Modelled from the spec: authority update, `authority_new[v] = Σ hub[u]`
over all `u` with an edge `u -> v`. -/
def authUpdate (g : Graph) (hub : ℕ → ℝ) : ℕ → ℝ :=
  fun v => ((inNbrs g v).map hub).sum

/-- Modelled from the spec: hub update, `hub_new[v] = Σ authority[u]`
over all `u` with an edge `v -> u`. -/
def hubUpdate (g : Graph) (auth : ℕ → ℝ) : ℕ → ℝ :=
  fun v => ((outNbrs g v).map auth).sum

/-- Sum of squares of a score vector over the vertex range. -/
def sumSq (g : Graph) (x : ℕ → ℝ) : ℝ :=
  ∑ v ∈ Finset.range g.numVerts, (x v) ^ 2

/-- L2 norm of a score vector over the vertex range. -/
noncomputable def l2norm (g : Graph) (x : ℕ → ℝ) : ℝ :=
  Real.sqrt (sumSq g x)

open Classical in
/-- Modelled from the spec: rescale to unit L2 norm, leaving a zero-norm
vector untouched rather than dividing by zero. -/
noncomputable def normalize (g : Graph) (x : ℕ → ℝ) : ℕ → ℝ :=
  if l2norm g x = 0 then x else fun v => x v / l2norm g x

/-- L1 distance between two score vectors over the vertex range. -/
def l1dist (g : Graph) (x y : ℕ → ℝ) : ℝ :=
  ∑ v ∈ Finset.range g.numVerts, |x v - y v|

/-- Modelled from the spec: one solver round.  From the current hub vector it
computes the raw authority update, then the raw hub update from the
just-computed authority values, normalizes both, and yields
`(hub_new, authority_new, Δ)` with `Δ` the L1 hub distance. -/
noncomputable def round (g : Graph) (hub : ℕ → ℝ) : (ℕ → ℝ) × (ℕ → ℝ) × ℝ :=
  (normalize g (hubUpdate g (authUpdate g hub)),
   normalize g (authUpdate g hub),
   l1dist g (normalize g (hubUpdate g (authUpdate g hub))) hub)

/-- Modelled from the spec: the two failure kinds of the solver.  A
convergence failure carries the last computed hub and authority vectors and
the final `Δ`. -/
inductive HitsError where
  | invalidGraph : HitsError
  | convergence : (ℕ → ℝ) → (ℕ → ℝ) → ℝ → HitsError

/-- Modelled from the spec: a valid input graph has at least one vertex and
every edge endpoint in range. -/
def validGraph (g : Graph) : Prop :=
  1 ≤ g.numVerts ∧ ∀ e ∈ g.edges, e.1 < g.numVerts ∧ e.2 < g.numVerts

instance (g : Graph) : Decidable (validGraph g) := by
  unfold validGraph; infer_instance

open Classical in
/-- Modelled from the spec: the iteration loop.  Runs up to `fuel` rounds;
a round returning `Δ < numVerts * tol` succeeds with that round's vectors;
exhausting the budget fails with the last computed state. -/
noncomputable def loop (g : Graph) (tol : ℝ) : (ℕ → ℝ) → ℕ → Except HitsError ((ℕ → ℝ) × (ℕ → ℝ))
  | hub, 0 => .error (.convergence hub hub 0)
  | hub, fuel + 1 =>
    if (round g hub).2.2 < g.numVerts * tol then
      .ok ((round g hub).1, (round g hub).2.1)
    else if fuel = 0 then
      .error (.convergence (round g hub).1 (round g hub).2.1 (round g hub).2.2)
    else
      loop g tol (round g hub).1 fuel

/-- Modelled from the spec: uniform start, `hub[v] = 1/N`. -/
noncomputable def initHub (g : Graph) : ℕ → ℝ :=
  fun _ => 1 / (g.numVerts : ℝ)

/-- Modelled from the spec: the HITS solver.  Rejects an invalid graph before
any iteration, otherwise runs up to `maxIter` rounds from the uniform start. -/
noncomputable def solve (g : Graph) (maxIter : ℕ) (tol : ℝ) :
    Except HitsError ((ℕ → ℝ) × (ℕ → ℝ)) :=
  if validGraph g then loop g tol (initHub g) maxIter else .error .invalidGraph

/-- Hub iterates of the round map from an arbitrary start. -/
noncomputable def iterFrom (g : Graph) (hub : ℕ → ℝ) : ℕ → (ℕ → ℝ)
  | 0 => hub
  | k + 1 => (round g (iterFrom g hub k)).1

/-- Hub vector after `k` rounds from the uniform start. -/
noncomputable def hubIter (g : Graph) : ℕ → (ℕ → ℝ) :=
  iterFrom g (initHub g)

/-- `Δ` computed in round `k+1` (i.e. by `round` applied to `hubIter g k`). -/
noncomputable def deltaIter (g : Graph) (k : ℕ) : ℝ :=
  (round g (hubIter g k)).2.2

/-- Authority vector computed in round `k+1`. -/
noncomputable def authIter (g : Graph) (k : ℕ) : ℕ → ℝ :=
  (round g (hubIter g k)).2.1

/-- Whether an `Except` result is a success. -/
def resultOk {ε α : Type _} : Except ε α → Bool
  | .ok _ => true
  | .error _ => false

/-- Hub vector of a successful solver result (zero vector on failure). -/
noncomputable def okHub : Except HitsError ((ℕ → ℝ) × (ℕ → ℝ)) → (ℕ → ℝ)
  | .ok p => p.1
  | .error _ => fun _ => 0

/-- Authority vector of a successful solver result (zero vector on failure). -/
noncomputable def okAuth : Except HitsError ((ℕ → ℝ) × (ℕ → ℝ)) → (ℕ → ℝ)
  | .ok p => p.2
  | .error _ => fun _ => 0

/-- An undirected graph: every edge is accompanied by its reverse. -/
def undirectedG (g : Graph) : Prop :=
  ∀ e ∈ g.edges, (e.2, e.1) ∈ g.edges

/-- A `d`-regular graph: every vertex has exactly `d` in-neighbors and `d`
out-neighbors. -/
def regularG (g : Graph) (d : ℕ) : Prop :=
  ∀ v < g.numVerts, (inNbrs g v).length = d ∧ (outNbrs g v).length = d

instance (g : Graph) : Decidable (undirectedG g) := by
  unfold undirectedG; infer_instance

instance (g : Graph) (d : ℕ) : Decidable (regularG g d) := by
  unfold regularG; infer_instance

/-! ### Computable integer shadow of the iteration -/

/-- Sum of squares of an integer vector. -/
def sqSumZ (w : List ℤ) : ℤ := (w.map (fun x => x ^ 2)).sum

/-- Integer authority update on direction vectors. -/
def aStepL (g : Graph) (w : List ℤ) : List ℤ :=
  (List.range g.numVerts).map (fun v => ((inNbrs g v).map (fun u => w.getD u 0)).sum)

/-- Integer hub update on direction vectors. -/
def hStepL (g : Graph) (a : List ℤ) : List ℤ :=
  (List.range g.numVerts).map (fun v => ((outNbrs g v).map (fun u => a.getD u 0)).sum)

/-- Global fixed-point scale for certified square-root bounds: all interval
endpoints are integers denoting multiples of `1/SCALE`. -/
def SCALE : ℤ := 1000000000000000000000000000000

/-- Certified integer lower bound (scaled by `SCALE`) for `Σ |x·α - y·β|`
from scaled interval bounds `α·SCALE ∈ [la, ua]`, `β·SCALE ∈ [lb, ub]` on
nonnegative data. -/
def lbFold (la ua lb ub : ℤ) : List (ℤ × ℤ) → ℤ
  | [] => 0
  | p :: ps => max 0 (max (p.1 * la - p.2 * ub) (p.2 * lb - p.1 * ua)) + lbFold la ua lb ub ps

/-- Certified integer upper bound (scaled by `SCALE`) for `Σ |x·α - y·β|`
from scaled interval bounds on nonnegative data. -/
def ubFold (la ua lb ub : ℤ) : List (ℤ × ℤ) → ℤ
  | [] => 0
  | p :: ps => max (p.1 * ua - p.2 * lb) (p.2 * ub - p.1 * la) + ubFold la ua lb ub ps


/-! ### Concrete graphs and data -/

/-- The graph with `n` vertices and no edges. -/
def gZero (n : ℕ) : Graph := ⟨n, []⟩

/-- The undirected 3-vertex star: center `0`, leaves `1` and `2`. -/
def gStar : Graph := ⟨3, [(0, 1), (1, 0), (0, 2), (2, 0)]⟩

/-- The undirected 2-cycle: one edge in both directions. -/
def gC2 : Graph := ⟨2, [(0, 1), (1, 0)]⟩

/-- The 34-vertex karate-club benchmark graph (spec section 8), as 78
undirected edges stored in both directions. -/

def gK : Graph :=
  ⟨34, [(0, 1), (0, 2), (0, 3), (0, 4), (0, 5), (0, 6), (0, 7), (0, 8), (0, 10), (0, 11), (0, 12), (0, 13), (0, 17), (0, 19), (0, 21), (0, 31), (1, 2), (1, 3), (1, 7), (1, 13), (1, 17), (1, 19), (1, 21), (1, 30), (2, 3), (2, 7), (2, 8), (2, 9), (2, 13), (2, 27), (2, 28), (2, 32), (3, 7), (3, 12), (3, 13), (4, 6), (4, 10), (5, 6), (5, 10), (5, 16), (6, 16), (8, 30), (8, 32), (8, 33), (9, 33), (13, 33), (14, 32), (14, 33), (15, 32), (15, 33), (18, 32), (18, 33), (19, 33), (20, 32), (20, 33), (22, 32), (22, 33), (23, 25), (23, 27), (23, 29), (23, 32), (23, 33), (24, 25), (24, 27), (24, 31), (25, 31), (26, 29), (26, 33), (27, 33), (28, 31), (28, 33), (29, 32), (29, 33), (30, 32), (30, 33), (31, 32), (31, 33), (32, 33),
   (1, 0), (2, 0), (3, 0), (4, 0), (5, 0), (6, 0), (7, 0), (8, 0), (10, 0), (11, 0), (12, 0), (13, 0), (17, 0), (19, 0), (21, 0), (31, 0), (2, 1), (3, 1), (7, 1), (13, 1), (17, 1), (19, 1), (21, 1), (30, 1), (3, 2), (7, 2), (8, 2), (9, 2), (13, 2), (27, 2), (28, 2), (32, 2), (7, 3), (12, 3), (13, 3), (6, 4), (10, 4), (6, 5), (10, 5), (16, 5), (16, 6), (30, 8), (32, 8), (33, 8), (33, 9), (33, 13), (32, 14), (33, 14), (32, 15), (33, 15), (32, 18), (33, 18), (33, 19), (32, 20), (33, 20), (32, 22), (33, 22), (25, 23), (27, 23), (29, 23), (32, 23), (33, 23), (25, 24), (27, 24), (31, 24), (31, 25), (29, 26), (33, 26), (33, 27), (31, 28), (33, 28), (32, 29), (33, 29), (32, 30), (33, 30), (32, 31), (33, 31), (33, 32)]⟩

/-- Hub direction vector of karate round 1: the 1-th iterate of the
unnormalized two-phase update on the all-ones start. -/

def kW1 : List ℤ :=
  [69, 52, 66, 46, 23, 25, 25, 41, 59, 27, 23, 16, 22, 58, 29, 29, 8, 25, 29, 42, 29, 25, 29, 40, 13, 14, 21, 35, 33, 36, 43, 54, 61, 65]

/-- Hub direction vector of karate round 2: the 2-th iterate of the
unnormalized two-phase update on the all-ones start. -/

def kW2 : List ℤ :=
  [3390, 2587, 3168, 2144, 844, 894, 894, 1806, 2482, 1135, 844, 602, 910, 2460, 1162, 1162, 250, 1017, 1162, 1671, 1162, 1017, 1162, 1640, 546, 569, 841, 1449, 1390, 1474, 1881, 2159, 2959, 3417]

/-- Hub direction vector of karate round 3: the 3-th iterate of the
unnormalized two-phase update on the all-ones start. -/

def kW3 : List ℤ :=
  [159042, 120410, 145315, 97384, 36005, 37793, 37793, 80176, 108128, 49153, 36005, 25499, 39820, 107527, 49382, 49382, 10756, 44053, 49382, 71404, 49382, 44053, 49382, 71355, 25387, 26316, 36208, 63198, 61424, 64141, 82751, 92147, 138289, 164258]

/-- Hub direction vector of karate round 4: the 4-th iterate of the
unnormalized two-phase update on the all-ones start. -/

def kW4 : List ℤ :=
  [7312611, 5502792, 6598335, 4404934, 1599948, 1675534, 1675534, 3592238, 4806968, 2177366, 1599948, 1123512, 1775802, 4784873, 2167640, 2167640, 487192, 1955217, 2167640, 3147852, 2167640, 1955217, 2167640, 3172954, 1169920, 1212579, 1602745, 2815229, 2752082, 2852241, 3689000, 4063422, 6351869, 7625634]

/-- Hub direction vector of karate round 5: the 5-th iterate of the
unnormalized two-phase update on the all-ones start. -/

def kW5 : List ℤ :=
  [333201767, 249951823, 298834438, 199183888, 71925504, 75276572, 75276572, 161770016, 215751906, 97555763, 71925504, 50262126, 79828777, 214824817, 96701555, 96701555, 22150570, 87702403, 96701555, 140757204, 96701555, 87702403, 96701555, 142427896, 53397834, 55373477, 71808003, 126504545, 123980458, 128036982, 165719281, 181748598, 289343439, 348875851]

/-- Hub direction vector of karate round 6: the 6-th iterate of the
unnormalized two-phase update on the all-ones start. -/

def kW6 : List ℤ :=
  [15121384117, 11326681934, 13523632787, 9008092528, 3245680807, 3396233951, 3396233951, 7302898828, 9725583386, 4394035089, 3245680807, 2262722551, 3601134189, 9684865495, 4346869394, 4346869394, 1005108826, 3952418768, 4346869394, 6334385435, 4346869394, 3952418768, 4346869394, 6420434930, 2425283173, 2515933740, 3234421856, 5705796003, 5598207915, 5771916521, 7472540387, 8180251780, 13129791643, 15860354517]

/-- Hub direction vector of karate round 7: the 7-th iterate of the
unnormalized two-phase update on the all-ones start. -/

def kW7 : List ℤ :=
  [685007993790, 512763751652, 611846784201, 407438303910, 146670622541, 153463090443, 153463090443, 330049487366, 439254303071, 198383914348, 146670622541, 102138915965, 162699513315, 437436064776, 196075638688, 196075638688, 45536815402, 178491553078, 196075638688, 285878130488, 196075638688, 178491553078, 196075638688, 289976316924, 109906630395, 114036729052, 146031580356, 257769688295, 253034869453, 260691702150, 337535979252, 369206745143, 594764510554, 719028426768]

/-- Hub direction vector of karate round 8: the 8-th iterate of the
unnormalized two-phase update on the all-ones start. -/

def kW8 : List ℤ :=
  [31006425693189, 23202965763339, 27678901541807, 18429629660739, 6631782760961, 6938708941847, 6938708941847, 14923844864265, 19855936860470, 8966244885465, 6631782760961, 4615962532011, 7355766127111, 19774186862515, 8858260449199, 8858260449199, 2061357044352, 8068138381950, 8858260449199, 12918480380200, 8858260449199, 8068138381950, 8858260449199, 13107909134551, 4975627010762, 5163083379321, 6600142832852, 11653549104774, 11442024045477, 11784271634936, 15258619993703, 16684407792274, 26921075310118, 32557069762420]

/-- Hub direction vector of karate round 9: the 9-th iterate of the
unnormalized two-phase update on the all-ones start. -/

def kW9 : List ℤ :=
  [1402982761097800, 1049750523365743, 1252095083365020, 833648561799412, 299932534390593, 313809952274287, 313809952274287, 674961682217142, 897906843350431, 405434034133681, 299932534390593, 208717342554247, 332659433406473, 894219833300472, 400476570049486, 400476570049486, 93276548880698, 364843708314565, 400476570049486, 584101859397895, 400476570049486, 364843708314565, 400476570049486, 592750218476554, 225152756588414, 233645394669225, 298444348123271, 527014123601619, 517499339334968, 532896960638411, 690025028111041, 754383275914190, 1218114450926752, 1473357488647293]

/-- Hub direction vector of karate round 10: the 10-th iterate of the
unnormalized two-phase update on the all-ones start. -/

def kW10 : List ℤ :=
  [63472187561959233, 47488816294741969, 56639336247118093, 37709813878476302, 13566343873035973, 14193963777584547, 14193963777584547, 30529540524428497, 40611249202355239, 18336705318684735, 13566343873035973, 9439616828629915, 15046286145382565, 40444713689985212, 18110970914307085, 18110970914307085, 4220003593286756, 16501339054547827, 18110970914307085, 26416512220104542, 18110970914307085, 16501339054547827, 18110970914307085, 26809279218537394, 10186393989320891, 10570823403932786, 13497839671730585, 23836776531353069, 23407457509949187, 24102253782076089, 31209267952372903, 34117752636027695, 55108216250914707, 66660132288668247]

/-- Hub direction vector of karate round 11: the 11-th iterate of the
unnormalized two-phase update on the all-ones start. -/

def kW11 : List ℤ :=
  [2871332519867100975, 2148225286452761898, 2562097399628971437, 1705798899717670285, 613651925096032985, 642039852651202079, 642039852651202079, 1380957338487590878, 1836937826331432902, 829398355318474932, 613651925096032985, 426966931077586723, 680587811541202292, 1829410217043217660, 819157004454317867, 819157004454317867, 190904997611733018, 746390981261127159, 819157004454317867, 1194843859816753941, 819157004454317867, 746390981261127159, 819157004454317867, 1212641039471699405, 460813778592275656, 478208765833003499, 610528345985477715, 1078201910146733380, 1058803566323219983, 1090197592782007101, 1411670194938891486, 1543179935118918155, 2492956533045643929, 3015627943564182711]

/-! ### Result-dataframe model for the notebook printing helpers -/

/-- One row of the HITS result dataframe. -/
structure DFRow where
  vertex : ℕ
  hubs : ℚ
  authorities : ℚ

/-- The line printed for a row by `print_hub_threshold`. -/
def hubLine (r : DFRow) : String :=
  "Best vertex is " ++ toString r.vertex ++ " with HUB score of " ++ toString r.hubs

/-- The line printed for a row by `print_authorities_threshold`. -/
def authLine (r : DFRow) : String :=
  "Best vertex is " ++ toString r.vertex ++ " with Authorities score of " ++ toString r.authorities

/-- `print_hub_threshold(_df, t)`: keep the rows with `hubs >= t` (in row
order, as `query` does) and print one line per kept row. -/
def print_hub_threshold (df : List DFRow) (t : ℚ) : List String :=
  (df.filter (fun r => t ≤ r.hubs)).map hubLine

/-- `print_authorities_threshold(_df, t)`: keep the rows with
`authorities >= t` and print one line per kept row. -/
def print_authorities_threshold (df : List DFRow) (t : ℚ) : List String :=
  (df.filter (fun r => t ≤ r.authorities)).map authLine

/-- A small concrete result dataframe. -/
def dfW : List DFRow :=
  [⟨0, 1/2, 1/3⟩, ⟨1, 3/4, 1/3⟩, ⟨2, 3/4, 2/3⟩]

/-! ### Generic list and sum helpers -/

theorem sum_range_getD1 (f : ℤ → ℝ) :
    ∀ (X : List ℤ), ∑ v ∈ Finset.range X.length, f (X.getD v 0) = (X.map f).sum := by
  intro X
  induction X with
  | nil => simp
  | cons x xs ih =>
    rw [List.length_cons, Finset.sum_range_succ']
    simp only [List.getD_cons_succ, List.getD_cons_zero, List.map_cons, List.sum_cons, ih]
    ring

theorem sum_range_getD2 (f : ℤ → ℤ → ℝ) :
    ∀ (X Y : List ℤ), X.length = Y.length →
      ∑ v ∈ Finset.range X.length, f (X.getD v 0) (Y.getD v 0) =
        ((X.zip Y).map (fun p => f p.1 p.2)).sum := by
  intro X
  induction X with
  | nil => simp
  | cons x xs ih =>
    intro Y hlen
    match Y with
    | [] => simp at hlen
    | y :: ys =>
      rw [List.length_cons, Finset.sum_range_succ']
      simp only [List.getD_cons_succ, List.getD_cons_zero, List.zip_cons_cons, List.map_cons,
        List.sum_cons]
      rw [ih ys (by simpa using hlen)]
      ring

theorem getD_map_range (n : ℕ) (f : ℕ → ℤ) {v : ℕ} (hv : v < n) :
    ((List.range n).map f).getD v 0 = f v := by
  rw [List.getD_eq_getElem?_getD]
  simp [List.getElem?_map, List.getElem?_range hv]

theorem getD_len_le (X : List ℤ) {v : ℕ} (hv : X.length ≤ v) : X.getD v 0 = 0 :=
  List.getD_eq_default _ _ hv

/-- Casting an integer list sum to the reals. -/
theorem cast_list_sum (X : List ℤ) : ((X.sum : ℤ) : ℝ) = (X.map (fun q : ℤ => (q : ℝ))).sum := by
  simpa using map_list_sum (Int.castRingHom ℝ) X

/-- Certified integer bounds, scaled by `SCALE`, for `1 / √S`. -/
theorem inv_sqrt_bounds (S l u : ℤ) (hS : 0 < S) (hl : 0 ≤ l) (hu : 0 ≤ u)
    (h1 : l ^ 2 * S ≤ SCALE ^ 2) (h2 : SCALE ^ 2 ≤ u ^ 2 * S) :
    (l : ℝ) ≤ 1 / Real.sqrt ((S : ℤ) : ℝ) * (SCALE : ℝ) ∧
      1 / Real.sqrt ((S : ℤ) : ℝ) * (SCALE : ℝ) ≤ (u : ℝ) := by
  have hS' : (0 : ℝ) < (S : ℝ) := by exact_mod_cast hS
  have hs : 0 < Real.sqrt ((S : ℤ) : ℝ) := Real.sqrt_pos.2 hS'
  have hsq : Real.sqrt ((S : ℤ) : ℝ) ^ 2 = ((S : ℤ) : ℝ) := Real.sq_sqrt hS'.le
  have hscale : (0 : ℝ) < ((SCALE : ℤ) : ℝ) := by rw [SCALE]; positivity
  have hl' : (0 : ℝ) ≤ (l : ℝ) := by exact_mod_cast hl
  have hu' : (0 : ℝ) ≤ (u : ℝ) := by exact_mod_cast hu
  have h1' : (l : ℝ) ^ 2 * ((S : ℤ) : ℝ) ≤ ((SCALE : ℤ) : ℝ) ^ 2 := by exact_mod_cast h1
  have h2' : ((SCALE : ℤ) : ℝ) ^ 2 ≤ (u : ℝ) ^ 2 * ((S : ℤ) : ℝ) := by exact_mod_cast h2
  have hform : 1 / Real.sqrt ((S : ℤ) : ℝ) * ((SCALE : ℤ) : ℝ) =
      ((SCALE : ℤ) : ℝ) / Real.sqrt ((S : ℤ) : ℝ) := by ring
  rw [hform]
  constructor
  · rw [le_div_iff hs]
    nlinarith [hs.le, mul_nonneg hl' hs.le]
  · rw [div_le_iff hs]
    nlinarith [hs.le, mul_nonneg hu' hs.le]

theorem lbFold_le (α β : ℝ) (la ua lb ub : ℤ)
    (hla : (la : ℝ) ≤ α * ((SCALE : ℤ) : ℝ)) (hua : α * ((SCALE : ℤ) : ℝ) ≤ (ua : ℝ))
    (hlb : (lb : ℝ) ≤ β * ((SCALE : ℤ) : ℝ)) (hub2 : β * ((SCALE : ℤ) : ℝ) ≤ (ub : ℝ)) :
    ∀ ps : List (ℤ × ℤ), (∀ p ∈ ps, 0 ≤ p.1 ∧ 0 ≤ p.2) →
      ((lbFold la ua lb ub ps : ℤ) : ℝ) ≤
        (ps.map (fun p => |(p.1 : ℝ) * α - (p.2 : ℝ) * β|)).sum * ((SCALE : ℤ) : ℝ) := by
  have hscale : (0 : ℝ) < ((SCALE : ℤ) : ℝ) := by rw [SCALE]; positivity
  intro ps
  induction ps with
  | nil => simp [lbFold]
  | cons p ps ih =>
    intro hpos
    have hp := hpos p (List.mem_cons_self p ps)
    have hx : (0 : ℝ) ≤ (p.1 : ℝ) := by exact_mod_cast hp.1
    have hy : (0 : ℝ) ≤ (p.2 : ℝ) := by exact_mod_cast hp.2
    have c1 : (p.1 : ℝ) * (la : ℝ) ≤ (p.1 : ℝ) * (α * ((SCALE : ℤ) : ℝ)) :=
      mul_le_mul_of_nonneg_left hla hx
    have c2 : (p.2 : ℝ) * (β * ((SCALE : ℤ) : ℝ)) ≤ (p.2 : ℝ) * (ub : ℝ) :=
      mul_le_mul_of_nonneg_left hub2 hy
    have c3 : (p.2 : ℝ) * (lb : ℝ) ≤ (p.2 : ℝ) * (β * ((SCALE : ℤ) : ℝ)) :=
      mul_le_mul_of_nonneg_left hlb hy
    have c4 : (p.1 : ℝ) * (α * ((SCALE : ℤ) : ℝ)) ≤ (p.1 : ℝ) * (ua : ℝ) :=
      mul_le_mul_of_nonneg_left hua hx
    have habs1 : ((p.1 : ℝ) * α - (p.2 : ℝ) * β) * ((SCALE : ℤ) : ℝ) ≤
        |(p.1 : ℝ) * α - (p.2 : ℝ) * β| * ((SCALE : ℤ) : ℝ) :=
      mul_le_mul_of_nonneg_right (le_abs_self _) hscale.le
    have habs2 : ((p.2 : ℝ) * β - (p.1 : ℝ) * α) * ((SCALE : ℤ) : ℝ) ≤
        |(p.1 : ℝ) * α - (p.2 : ℝ) * β| * ((SCALE : ℤ) : ℝ) := by
      rw [show (p.2 : ℝ) * β - (p.1 : ℝ) * α = -((p.1 : ℝ) * α - (p.2 : ℝ) * β) by ring]
      exact mul_le_mul_of_nonneg_right (neg_le_abs _) hscale.le
    have hterm : ((max 0 (max (p.1 * la - p.2 * ub) (p.2 * lb - p.1 * ua)) : ℤ) : ℝ) ≤
        |(p.1 : ℝ) * α - (p.2 : ℝ) * β| * ((SCALE : ℤ) : ℝ) := by
      push_cast
      refine max_le (by positivity) (max_le ?_ ?_)
      · nlinarith
      · nlinarith
    have hrest := ih (fun q hq => hpos q (List.mem_cons_of_mem p hq))
    simp only [lbFold, List.map_cons, List.sum_cons]
    rw [add_mul]
    push_cast
    push_cast at hterm hrest
    linarith

theorem ubFold_ge (α β : ℝ) (la ua lb ub : ℤ)
    (hla : (la : ℝ) ≤ α * ((SCALE : ℤ) : ℝ)) (hua : α * ((SCALE : ℤ) : ℝ) ≤ (ua : ℝ))
    (hlb : (lb : ℝ) ≤ β * ((SCALE : ℤ) : ℝ)) (hub2 : β * ((SCALE : ℤ) : ℝ) ≤ (ub : ℝ)) :
    ∀ ps : List (ℤ × ℤ), (∀ p ∈ ps, 0 ≤ p.1 ∧ 0 ≤ p.2) →
      (ps.map (fun p => |(p.1 : ℝ) * α - (p.2 : ℝ) * β|)).sum * ((SCALE : ℤ) : ℝ) ≤
        ((ubFold la ua lb ub ps : ℤ) : ℝ) := by
  have hscale : (0 : ℝ) < ((SCALE : ℤ) : ℝ) := by rw [SCALE]; positivity
  intro ps
  induction ps with
  | nil => simp [ubFold]
  | cons p ps ih =>
    intro hpos
    have hp := hpos p (List.mem_cons_self p ps)
    have hx : (0 : ℝ) ≤ (p.1 : ℝ) := by exact_mod_cast hp.1
    have hy : (0 : ℝ) ≤ (p.2 : ℝ) := by exact_mod_cast hp.2
    have c1 : (p.2 : ℝ) * (lb : ℝ) ≤ (p.2 : ℝ) * (β * ((SCALE : ℤ) : ℝ)) :=
      mul_le_mul_of_nonneg_left hlb hy
    have c2 : (p.1 : ℝ) * (α * ((SCALE : ℤ) : ℝ)) ≤ (p.1 : ℝ) * (ua : ℝ) :=
      mul_le_mul_of_nonneg_left hua hx
    have c3 : (p.1 : ℝ) * (la : ℝ) ≤ (p.1 : ℝ) * (α * ((SCALE : ℤ) : ℝ)) :=
      mul_le_mul_of_nonneg_left hla hx
    have c4 : (p.2 : ℝ) * (β * ((SCALE : ℤ) : ℝ)) ≤ (p.2 : ℝ) * (ub : ℝ) :=
      mul_le_mul_of_nonneg_left hub2 hy
    have hterm : |(p.1 : ℝ) * α - (p.2 : ℝ) * β| * ((SCALE : ℤ) : ℝ) ≤
        ((max (p.1 * ua - p.2 * lb) (p.2 * ub - p.1 * la) : ℤ) : ℝ) := by
      push_cast
      rcases le_total ((p.2 : ℝ) * β) ((p.1 : ℝ) * α) with h | h
      · rw [abs_of_nonneg (by linarith)]
        refine le_max_of_le_left ?_
        nlinarith
      · rw [abs_of_nonpos (by linarith)]
        refine le_max_of_le_right ?_
        nlinarith
    have hrest := ih (fun q hq => hpos q (List.mem_cons_of_mem p hq))
    simp only [ubFold, List.map_cons, List.sum_cons]
    rw [add_mul]
    push_cast
    push_cast at hterm hrest
    linarith

/-! ### Adjacency facts on valid graphs -/

theorem inNbrs_mem_lt (g : Graph) (hval : validGraph g) (v : ℕ) {u : ℕ}
    (hu : u ∈ inNbrs g v) : u < g.numVerts := by
  simp only [inNbrs, List.mem_map, List.mem_filter] at hu
  obtain ⟨e, ⟨he, _⟩, rfl⟩ := hu
  exact (hval.2 e he).1

theorem inNbrs_nil_of_ge (g : Graph) (hval : validGraph g) {v : ℕ}
    (hv : g.numVerts ≤ v) : inNbrs g v = [] := by
  rw [inNbrs, List.map_eq_nil_iff, List.filter_eq_nil_iff]
  intro e he
  have := (hval.2 e he).2
  simp only [beq_iff_eq]
  omega

theorem outNbrs_nil_of_ge (g : Graph) (hval : validGraph g) {v : ℕ}
    (hv : g.numVerts ≤ v) : outNbrs g v = [] := by
  rw [outNbrs, List.map_eq_nil_iff, List.filter_eq_nil_iff]
  intro e he
  have := (hval.2 e he).1
  simp only [beq_iff_eq]
  omega

theorem aStepL_length (g : Graph) (w : List ℤ) : (aStepL g w).length = g.numVerts := by
  simp [aStepL]

theorem hStepL_length (g : Graph) (a : List ℤ) : (hStepL g a).length = g.numVerts := by
  simp [hStepL]

/-! ### Shadow lemmas: the real round tracked on integer direction vectors -/

theorem authUpdate_shadow (g : Graph) (hval : validGraph g) (W : List ℤ)
    (hW : W.length = g.numVerts) (hub : ℕ → ℝ) (α : ℝ)
    (hhub : ∀ v < g.numVerts, hub v = (W.getD v 0 : ℝ) * α) :
    ∀ v, authUpdate g hub v = ((aStepL g W).getD v 0 : ℝ) * α := by
  intro v
  by_cases hv : v < g.numVerts
  · have hmap : (inNbrs g v).map hub =
        (inNbrs g v).map (fun u => (W.getD u 0 : ℝ) * α) :=
      List.map_congr_left (fun u hu => hhub u (inNbrs_mem_lt g hval v hu))
    rw [authUpdate, hmap, List.sum_map_mul_right, aStepL, getD_map_range _ _ hv,
      cast_list_sum, List.map_map]
    rfl
  · rw [authUpdate, inNbrs_nil_of_ge g hval (le_of_not_lt hv),
      getD_len_le _ (by rw [aStepL_length]; omega)]
    simp

theorem hubUpdate_shadow (g : Graph) (hval : validGraph g) (A : List ℤ)
    (hA : A.length = g.numVerts) (auth : ℕ → ℝ) (α : ℝ)
    (hauth : ∀ v, auth v = (A.getD v 0 : ℝ) * α) :
    ∀ v, hubUpdate g auth v = ((hStepL g A).getD v 0 : ℝ) * α := by
  intro v
  by_cases hv : v < g.numVerts
  · have hmap : (outNbrs g v).map auth =
        (outNbrs g v).map (fun u => (A.getD u 0 : ℝ) * α) :=
      List.map_congr_left (fun u _ => hauth u)
    rw [hubUpdate, hmap, List.sum_map_mul_right, hStepL, getD_map_range _ _ hv,
      cast_list_sum, List.map_map]
    rfl
  · rw [hubUpdate, outNbrs_nil_of_ge g hval (le_of_not_lt hv),
      getD_len_le _ (by rw [hStepL_length]; omega)]
    simp

theorem cast_sqSumZ (X : List ℤ) :
    ((sqSumZ X : ℤ) : ℝ) = (X.map (fun q : ℤ => (q : ℝ) ^ 2)).sum := by
  rw [sqSumZ, cast_list_sum, List.map_map]
  congr 1
  refine List.map_congr_left (fun q _ => ?_)
  show ((q ^ 2 : ℤ) : ℝ) = (q : ℝ) ^ 2
  push_cast
  rfl

theorem sumSq_shadow (g : Graph) (X : List ℤ) (hX : X.length = g.numVerts) (α : ℝ)
    (x : ℕ → ℝ) (hx : ∀ v, x v = (X.getD v 0 : ℝ) * α) :
    sumSq g x = ((sqSumZ X : ℤ) : ℝ) * α ^ 2 := by
  unfold sumSq
  have h1 : ∀ v ∈ Finset.range g.numVerts, x v ^ 2 = (X.getD v 0 : ℝ) ^ 2 * α ^ 2 := by
    intro v _
    rw [hx v, mul_pow]
  rw [Finset.sum_congr rfl h1, ← Finset.sum_mul, cast_sqSumZ, ← hX,
    sum_range_getD1 (fun q : ℤ => (q : ℝ) ^ 2) X]

theorem l1dist_shadow (g : Graph) (X Y : List ℤ) (hX : X.length = g.numVerts)
    (hY : Y.length = g.numVerts) (α β : ℝ) (x y : ℕ → ℝ)
    (hx : ∀ v, x v = (X.getD v 0 : ℝ) * α)
    (hy : ∀ v < g.numVerts, y v = (Y.getD v 0 : ℝ) * β) :
    l1dist g x y = ((X.zip Y).map (fun p => |(p.1 : ℝ) * α - (p.2 : ℝ) * β|)).sum := by
  unfold l1dist
  have h1 : ∀ v ∈ Finset.range g.numVerts,
      |x v - y v| = |(X.getD v 0 : ℝ) * α - (Y.getD v 0 : ℝ) * β| := by
    intro v hv
    rw [hx v, hy v (Finset.mem_range.mp hv)]
  rw [Finset.sum_congr rfl h1, ← hX,
    sum_range_getD2 (fun a b : ℤ => |(a : ℝ) * α - (b : ℝ) * β|) X Y (by omega)]

/-- The workhorse: one solver round applied to a hub vector that is a positive
multiple of a rational direction vector `W` produces the direction vectors
`hStepL (aStepL W)` and `aStepL W`, each rescaled to unit norm, and the
L1 convergence measure is the corresponding explicit sum. -/
theorem round_shadow (g : Graph) (hval : validGraph g) (W Wn : List ℤ)
    (hW : W.length = g.numVerts) (hstep : hStepL g (aStepL g W) = Wn)
    (hT : 0 < sqSumZ (aStepL g W)) (hS : 0 < sqSumZ Wn)
    (hub : ℕ → ℝ) (α : ℝ) (hα : 0 < α)
    (hhub : ∀ v < g.numVerts, hub v = (W.getD v 0 : ℝ) * α) :
    (∀ v, (round g hub).1 v =
        (Wn.getD v 0 : ℝ) * (1 / Real.sqrt ((sqSumZ Wn : ℤ) : ℝ))) ∧
    (∀ v, (round g hub).2.1 v =
        ((aStepL g W).getD v 0 : ℝ) * (1 / Real.sqrt ((sqSumZ (aStepL g W) : ℤ) : ℝ))) ∧
    (round g hub).2.2 =
      ((Wn.zip W).map
        (fun p => |(p.1 : ℝ) * (1 / Real.sqrt ((sqSumZ Wn : ℤ) : ℝ)) - (p.2 : ℝ) * α|)).sum := by
  have hA : (aStepL g W).length = g.numVerts := aStepL_length g W
  have hWn : Wn.length = g.numVerts := by rw [← hstep]; exact hStepL_length g _
  have haraw := authUpdate_shadow g hval W hW hub α hhub
  have hhraw : ∀ v, hubUpdate g (authUpdate g hub) v = (Wn.getD v 0 : ℝ) * α := by
    intro v
    rw [hubUpdate_shadow g hval (aStepL g W) hA (authUpdate g hub) α haraw v, hstep]
  have hTc : (0 : ℝ) < ((sqSumZ (aStepL g W) : ℤ) : ℝ) := by exact_mod_cast hT
  have hSc : (0 : ℝ) < ((sqSumZ Wn : ℤ) : ℝ) := by exact_mod_cast hS
  have hsumh := sumSq_shadow g Wn hWn α (hubUpdate g (authUpdate g hub)) hhraw
  have hsuma := sumSq_shadow g (aStepL g W) hA α (authUpdate g hub) haraw
  have hnormh : l2norm g (hubUpdate g (authUpdate g hub)) =
      Real.sqrt ((sqSumZ Wn : ℤ) : ℝ) * α := by
    rw [l2norm, hsumh, Real.sqrt_mul hSc.le, Real.sqrt_sq hα.le]
  have hnorma : l2norm g (authUpdate g hub) =
      Real.sqrt ((sqSumZ (aStepL g W) : ℤ) : ℝ) * α := by
    rw [l2norm, hsuma, Real.sqrt_mul hTc.le, Real.sqrt_sq hα.le]
  have hsq : (0 : ℝ) < Real.sqrt ((sqSumZ Wn : ℤ) : ℝ) := Real.sqrt_pos.2 hSc
  have htq : (0 : ℝ) < Real.sqrt ((sqSumZ (aStepL g W) : ℤ) : ℝ) := Real.sqrt_pos.2 hTc
  have hne : l2norm g (hubUpdate g (authUpdate g hub)) ≠ 0 := by
    rw [hnormh]; positivity
  have hnea : l2norm g (authUpdate g hub) ≠ 0 := by
    rw [hnorma]; positivity
  have hhub1 : ∀ v, (round g hub).1 v =
      (Wn.getD v 0 : ℝ) * (1 / Real.sqrt ((sqSumZ Wn : ℤ) : ℝ)) := by
    intro v
    show normalize g (hubUpdate g (authUpdate g hub)) v = _
    rw [normalize, if_neg hne]
    rw [hhraw v, hnormh, mul_comm (Real.sqrt ((sqSumZ Wn : ℤ) : ℝ)) α, ← div_div,
      mul_div_assoc, div_self hα.ne', mul_one, mul_one_div]
  have hauth1 : ∀ v, (round g hub).2.1 v =
      ((aStepL g W).getD v 0 : ℝ) * (1 / Real.sqrt ((sqSumZ (aStepL g W) : ℤ) : ℝ)) := by
    intro v
    show normalize g (authUpdate g hub) v = _
    rw [normalize, if_neg hnea]
    rw [haraw v, hnorma, mul_comm (Real.sqrt ((sqSumZ (aStepL g W) : ℤ) : ℝ)) α, ← div_div,
      mul_div_assoc, div_self hα.ne', mul_one, mul_one_div]
  refine ⟨hhub1, hauth1, ?_⟩
  show l1dist g (normalize g (hubUpdate g (authUpdate g hub))) hub = _
  exact l1dist_shadow g Wn W hWn hW _ α _ hub hhub1 hhub

/-! ### Norm and normalization facts -/

theorem sumSq_nonneg (g : Graph) (x : ℕ → ℝ) : 0 ≤ sumSq g x :=
  Finset.sum_nonneg (fun v _ => sq_nonneg (x v))

theorem l2norm_nonneg (g : Graph) (x : ℕ → ℝ) : 0 ≤ l2norm g x :=
  Real.sqrt_nonneg _

theorem l2norm_zero_vanish (g : Graph) (x : ℕ → ℝ) (h : l2norm g x = 0) :
    ∀ v < g.numVerts, x v = 0 := by
  intro v hv
  have hs : sumSq g x = 0 := by
    have := (Real.sqrt_eq_zero (sumSq_nonneg g x)).mp h
    exact this
  have hterm := (Finset.sum_eq_zero_iff_of_nonneg
    (fun u _ => sq_nonneg (x u))).mp hs v (Finset.mem_range.mpr hv)
  exact pow_eq_zero_iff (two_ne_zero) |>.mp hterm

theorem normalize_of_norm_zero (g : Graph) (x : ℕ → ℝ) (h : l2norm g x = 0) :
    normalize g x = x := by
  rw [normalize, if_pos h]

theorem l2norm_normalize_eq_one (g : Graph) (x : ℕ → ℝ) (h : l2norm g x ≠ 0) :
    l2norm g (normalize g x) = 1 := by
  have hc : 0 < l2norm g x := lt_of_le_of_ne (l2norm_nonneg g x) (Ne.symm h)
  have hsq : l2norm g x ^ 2 = sumSq g x := Real.sq_sqrt (sumSq_nonneg g x)
  have hS : sumSq g x ≠ 0 := by
    intro h0
    exact h (by rw [l2norm, h0, Real.sqrt_zero])
  rw [normalize, if_neg h]
  have hsum : sumSq g (fun v => x v / l2norm g x) = sumSq g x / l2norm g x ^ 2 := by
    show ∑ v ∈ Finset.range g.numVerts, (x v / l2norm g x) ^ 2 = _
    rw [Finset.sum_congr rfl (fun v _ => div_pow (x v) (l2norm g x) 2), ← Finset.sum_div]
    rfl
  rw [l2norm, hsum, hsq, div_self hS, Real.sqrt_one]

/-- Norm of a normalized vector: `0` exactly on the zero-norm edge case, else `1`. -/
theorem l2norm_normalize_cases (g : Graph) (x : ℕ → ℝ) :
    l2norm g (normalize g x) = 0 ∨ l2norm g (normalize g x) = 1 := by
  by_cases h : l2norm g x = 0
  · left; rw [normalize_of_norm_zero g x h]; exact h
  · right; exact l2norm_normalize_eq_one g x h

/-! ### Loop unfolding lemmas -/

theorem iterFrom_shift (g : Graph) (hub : ℕ → ℝ) :
    ∀ k, iterFrom g ((round g hub).1) k = iterFrom g hub (k + 1) := by
  intro k
  induction k with
  | zero => rfl
  | succ k ih => show (round g _).1 = _; rw [ih]; rfl

theorem loop_zero (g : Graph) (tol : ℝ) (hub : ℕ → ℝ) :
    loop g tol hub 0 = .error (.convergence hub hub 0) := rfl

theorem loop_succ (g : Graph) (tol : ℝ) (hub : ℕ → ℝ) (f : ℕ) :
    loop g tol hub (f + 1) =
      if (round g hub).2.2 < g.numVerts * tol then
        .ok ((round g hub).1, (round g hub).2.1)
      else if f = 0 then
        .error (.convergence (round g hub).1 (round g hub).2.1 (round g hub).2.2)
      else
        loop g tol (round g hub).1 f := rfl

theorem loop_all_fail (g : Graph) (tol : ℝ) :
    ∀ (m : ℕ) (hub : ℕ → ℝ),
      (∀ k < m + 1, ¬ ((round g (iterFrom g hub k)).2.2 < g.numVerts * tol)) →
      loop g tol hub (m + 1) =
        .error (.convergence (iterFrom g hub (m + 1)) (round g (iterFrom g hub m)).2.1
          (round g (iterFrom g hub m)).2.2) := by
  intro m
  induction m with
  | zero =>
    intro hub hf
    have h0 := hf 0 (by omega)
    simp only [iterFrom] at h0 ⊢
    rw [loop_succ, if_neg h0, if_pos rfl]
  | succ m ih =>
    intro hub hf
    have h0 := hf 0 (by omega)
    simp only [iterFrom] at h0
    rw [loop_succ, if_neg h0, if_neg (Nat.succ_ne_zero m)]
    have hrec := ih ((round g hub).1) (fun k hk => by
      rw [iterFrom_shift]
      exact hf (k + 1) (by omega))
    rw [hrec, iterFrom_shift, iterFrom_shift]

theorem loop_first_success (g : Graph) (tol : ℝ) :
    ∀ (j fuel : ℕ) (hub : ℕ → ℝ), j < fuel →
      (∀ k < j, ¬ ((round g (iterFrom g hub k)).2.2 < g.numVerts * tol)) →
      ((round g (iterFrom g hub j)).2.2 < g.numVerts * tol) →
      loop g tol hub fuel =
        .ok ((round g (iterFrom g hub j)).1, (round g (iterFrom g hub j)).2.1) := by
  intro j
  induction j with
  | zero =>
    intro fuel hub hlt _ hsucc
    cases fuel with
    | zero => omega
    | succ f =>
      simp only [iterFrom] at hsucc ⊢
      rw [loop_succ, if_pos hsucc]
  | succ j ih =>
    intro fuel hub hlt hfail hsucc
    cases fuel with
    | zero => omega
    | succ f =>
      have h0 := hfail 0 (by omega)
      simp only [iterFrom] at h0
      rw [loop_succ, if_neg h0, if_neg (by omega : ¬ f = 0)]
      have hrec := ih f ((round g hub).1) (by omega)
        (fun k hk => by rw [iterFrom_shift]; exact hfail (k + 1) (by omega))
        (by rw [iterFrom_shift]; exact hsucc)
      rw [hrec, iterFrom_shift]

theorem loop_ok_shape (g : Graph) (tol : ℝ) :
    ∀ (fuel : ℕ) (hub h a : ℕ → ℝ), loop g tol hub fuel = .ok (h, a) →
      ∃ x y, h = normalize g x ∧ a = normalize g y := by
  intro fuel
  induction fuel with
  | zero => intro hub h a hloop; rw [loop_zero] at hloop; exact Except.noConfusion hloop
  | succ f ih =>
    intro hub h a hloop
    rw [loop_succ] at hloop
    by_cases h1 : (round g hub).2.2 < g.numVerts * tol
    · rw [if_pos h1] at hloop
      have hp := Except.ok.inj hloop
      exact ⟨hubUpdate g (authUpdate g hub), authUpdate g hub,
        (congrArg Prod.fst hp).symm, (congrArg Prod.snd hp).symm⟩
    · rw [if_neg h1] at hloop
      by_cases h2 : f = 0
      · rw [if_pos h2] at hloop; exact Except.noConfusion hloop
      · rw [if_neg h2] at hloop; exact ih _ _ _ hloop

theorem loop_ne_invalid (g : Graph) (tol : ℝ) :
    ∀ (fuel : ℕ) (hub : ℕ → ℝ), loop g tol hub fuel ≠ .error .invalidGraph := by
  intro fuel
  induction fuel with
  | zero =>
    intro hub hcon
    rw [loop_zero] at hcon
    exact HitsError.noConfusion (Except.error.inj hcon)
  | succ f ih =>
    intro hub
    rw [loop_succ]
    by_cases h1 : (round g hub).2.2 < g.numVerts * tol
    · rw [if_pos h1]; intro hcon; exact Except.noConfusion hcon
    · rw [if_neg h1]
      by_cases h2 : f = 0
      · rw [if_pos h2]; intro hcon; exact HitsError.noConfusion (Except.error.inj hcon)
      · rw [if_neg h2]; exact ih _

open Classical in
theorem loop_conv_all_fail (g : Graph) (tol : ℝ) (m : ℕ) (hub h a : ℕ → ℝ) (d : ℝ)
    (hloop : loop g tol hub (m + 1) = .error (.convergence h a d)) :
    ∀ k < m + 1, ¬ ((round g (iterFrom g hub k)).2.2 < g.numVerts * tol) := by
  by_contra hc
  push_neg at hc
  obtain ⟨k, hk, hkt⟩ := hc
  have hP : ∃ i, (round g (iterFrom g hub i)).2.2 < g.numVerts * tol := ⟨k, hkt⟩
  have hj := Nat.find_spec hP
  have hjle : Nat.find hP ≤ k := Nat.find_min' hP hkt
  have hmin : ∀ i < Nat.find hP, ¬ ((round g (iterFrom g hub i)).2.2 < g.numVerts * tol) :=
    fun i hi => Nat.find_min hP hi
  have := loop_first_success g tol (Nat.find hP) (m + 1) hub (by omega) hmin hj
  rw [this] at hloop
  simp at hloop

/-! ### Certified round steps -/

theorem inv_sqrt_pos (S : ℚ) (hS : 0 < S) : (0 : ℝ) < 1 / Real.sqrt ((S : ℚ) : ℝ) :=
  div_pos one_pos (Real.sqrt_pos.2 (by exact_mod_cast hS))

/-- One certified solver round: the shadow characterization of the new hub and
authority vectors, together with decidable rational criteria settling the
convergence test of this round in either direction. -/
theorem step_cert (g : Graph) (hval : validGraph g) (W Wn : List ℤ) (hub : ℕ → ℝ) (α : ℝ)
    (la ua l u : ℤ) (tol : ℝ) (c : ℤ)
    (hW : W.length = g.numVerts) (hstep : hStepL g (aStepL g W) = Wn)
    (hT : 0 < sqSumZ (aStepL g W)) (hS : 0 < sqSumZ Wn)
    (hα : 0 < α) (hhub : ∀ v < g.numVerts, hub v = (W.getD v 0 : ℝ) * α)
    (hla : (la : ℝ) ≤ α * ((SCALE : ℤ) : ℝ)) (hua : α * ((SCALE : ℤ) : ℝ) ≤ (ua : ℝ))
    (hl : 0 ≤ l) (hu : 0 ≤ u)
    (hl2 : l ^ 2 * sqSumZ Wn ≤ SCALE ^ 2) (hu2 : SCALE ^ 2 ≤ u ^ 2 * sqSumZ Wn)
    (hWn0 : ∀ x ∈ Wn, 0 ≤ x) (hW0 : ∀ x ∈ W, 0 ≤ x)
    (hc : ((c : ℤ) : ℝ) = g.numVerts * tol * ((SCALE : ℤ) : ℝ)) :
    (∀ v, (round g hub).1 v = (Wn.getD v 0 : ℝ) * (1 / Real.sqrt ((sqSumZ Wn : ℤ) : ℝ)))
    ∧ (∀ v, (round g hub).2.1 v = ((aStepL g W).getD v 0 : ℝ) *
        (1 / Real.sqrt ((sqSumZ (aStepL g W) : ℤ) : ℝ)))
    ∧ (c ≤ lbFold l u la ua (Wn.zip W) → ¬ ((round g hub).2.2 < g.numVerts * tol))
    ∧ (ubFold l u la ua (Wn.zip W) < c → ((round g hub).2.2 < g.numVerts * tol)) := by
  have hscale : (0 : ℝ) < ((SCALE : ℤ) : ℝ) := by rw [SCALE]; positivity
  obtain ⟨h1, h2, h3⟩ := round_shadow g hval W Wn hW hstep hT hS hub α hα hhub
  obtain ⟨hbl, hbu⟩ := inv_sqrt_bounds (sqSumZ Wn) l u hS hl hu hl2 hu2
  have hzip : ∀ p ∈ Wn.zip W, (0 : ℤ) ≤ p.1 ∧ (0 : ℤ) ≤ p.2 := by
    rintro ⟨x, y⟩ hp
    exact ⟨hWn0 x (List.of_mem_zip hp).1, hW0 y (List.of_mem_zip hp).2⟩
  refine ⟨h1, h2, ?_, ?_⟩
  · intro hfold
    have hlow := lbFold_le (1 / Real.sqrt ((sqSumZ Wn : ℤ) : ℝ)) α l u la ua
      hbl hbu hla hua (Wn.zip W) hzip
    have hcast : ((c : ℤ) : ℝ) ≤ ((lbFold l u la ua (Wn.zip W) : ℤ) : ℝ) := by
      exact_mod_cast hfold
    rw [h3, not_lt]
    have hchain : (g.numVerts * tol) * ((SCALE : ℤ) : ℝ) ≤
        ((Wn.zip W).map (fun p => |(p.1 : ℝ) * (1 / Real.sqrt ((sqSumZ Wn : ℤ) : ℝ))
          - (p.2 : ℝ) * α|)).sum * ((SCALE : ℤ) : ℝ) := by
      rw [← hc]
      exact le_trans hcast hlow
    exact (mul_le_mul_right hscale).mp hchain
  · intro hfold
    have hhigh := ubFold_ge (1 / Real.sqrt ((sqSumZ Wn : ℤ) : ℝ)) α l u la ua
      hbl hbu hla hua (Wn.zip W) hzip
    have hcast : ((ubFold l u la ua (Wn.zip W) : ℤ) : ℝ) < ((c : ℤ) : ℝ) := by
      exact_mod_cast hfold
    rw [h3]
    have hchain : ((Wn.zip W).map (fun p => |(p.1 : ℝ) * (1 / Real.sqrt ((sqSumZ Wn : ℤ) : ℝ))
        - (p.2 : ℝ) * α|)).sum * ((SCALE : ℤ) : ℝ) < (g.numVerts * tol) * ((SCALE : ℤ) : ℝ) := by
      rw [← hc]
      exact lt_of_le_of_lt hhigh hcast
    exact (mul_lt_mul_right hscale).mp hchain

/-- The uniform start is the all-ones direction vector scaled by `1/N`. -/
theorem initHub_shadow (g : Graph) :
    ∀ v < g.numVerts,
      initHub g v = ((List.replicate g.numVerts (1 : ℤ)).getD v 0 : ℝ) * (1 / (g.numVerts : ℝ)) := by
  intro v hv
  rw [initHub, List.getD_eq_getElem?_getD]
  simp [List.getElem?_replicate, hv]

/-! ### The no-edge graph -/

theorem zero_edge_round (n : ℕ) (hub : ℕ → ℝ) :
    (∀ v, (round (gZero n) hub).1 v = 0) ∧ (∀ v, (round (gZero n) hub).2.1 v = 0) ∧
      (round (gZero n) hub).2.2 = ∑ v ∈ Finset.range n, |hub v| := by
  have hout : ∀ (x : ℕ → ℝ) v, hubUpdate (gZero n) x v = 0 := by
    intro x v; simp [hubUpdate, outNbrs, gZero]
  have hin : ∀ (x : ℕ → ℝ) v, authUpdate (gZero n) x v = 0 := by
    intro x v; simp [authUpdate, inNbrs, gZero]
  have hnorm : ∀ x : ℕ → ℝ, (∀ v, x v = 0) → l2norm (gZero n) x = 0 := by
    intro x hx
    rw [l2norm]
    have : sumSq (gZero n) x = 0 :=
      Finset.sum_eq_zero (fun v _ => by rw [hx v]; ring)
    rw [this, Real.sqrt_zero]
  have hh : ∀ v, normalize (gZero n) (hubUpdate (gZero n) (authUpdate (gZero n) hub)) v = 0 := by
    intro v
    rw [normalize_of_norm_zero _ _ (hnorm _ (hout _))]
    exact hout _ v
  have ha : ∀ v, normalize (gZero n) (authUpdate (gZero n) hub) v = 0 := by
    intro v
    rw [normalize_of_norm_zero _ _ (hnorm _ (hin _))]
    exact hin _ v
  refine ⟨hh, ha, ?_⟩
  show l1dist (gZero n) _ hub = _
  unfold l1dist
  exact Finset.sum_congr rfl (fun v _ => by rw [hh v, zero_sub, abs_neg])

theorem zero_edge_delta0 (n : ℕ) (hn : 1 ≤ n) : deltaIter (gZero n) 0 = 1 := by
  have hncast : (0 : ℝ) < (n : ℝ) := by exact_mod_cast hn
  obtain ⟨hr1, hr2, hr3⟩ := zero_edge_round n (initHub (gZero n))
  show (round (gZero n) (initHub (gZero n))).2.2 = 1
  rw [hr3]
  have : ∀ v ∈ Finset.range n, |initHub (gZero n) v| = 1 / (n : ℝ) := by
    intro v _
    rw [initHub]
    exact abs_of_nonneg (by positivity)
  rw [Finset.sum_congr rfl this, Finset.sum_const, Finset.card_range, nsmul_eq_mul,
    mul_one_div, div_self hncast.ne']

theorem zero_edge_run (n maxIter : ℕ) (tol : ℝ) (hn : 1 ≤ n) (hmi : 2 ≤ maxIter)
    (htol : 0 < tol) (hbound : (n : ℝ) * tol ≤ 1) :
    deltaIter (gZero n) 0 = 1
  ∧ ¬ (deltaIter (gZero n) 0 < ((gZero n).numVerts : ℝ) * tol)
  ∧ deltaIter (gZero n) 1 = 0
  ∧ deltaIter (gZero n) 1 < ((gZero n).numVerts : ℝ) * tol
  ∧ solve (gZero n) maxIter tol =
      .ok ((round (gZero n) (hubIter (gZero n) 1)).1, (round (gZero n) (hubIter (gZero n) 1)).2.1)
  ∧ (∀ v, okHub (solve (gZero n) maxIter tol) v = 0)
  ∧ (∀ v, okAuth (solve (gZero n) maxIter tol) v = 0) := by
  have hncast : (0 : ℝ) < (n : ℝ) := by exact_mod_cast hn
  obtain ⟨hr1, hr2, hr3⟩ := zero_edge_round n (initHub (gZero n))
  have d0 : deltaIter (gZero n) 0 = 1 := zero_edge_delta0 n hn
  have hfail : ¬ (deltaIter (gZero n) 0 < ((gZero n).numVerts : ℝ) * tol) := by
    rw [d0]
    exact not_lt.mpr hbound
  obtain ⟨hs1, hs2, hs3⟩ := zero_edge_round n (hubIter (gZero n) 1)
  have hub1 : ∀ v, hubIter (gZero n) 1 v = 0 := hr1
  have d1 : deltaIter (gZero n) 1 = 0 := by
    show (round (gZero n) (hubIter (gZero n) 1)).2.2 = 0
    rw [hs3]
    exact Finset.sum_eq_zero (fun v _ => by rw [hub1 v, abs_zero])
  have hsucc : deltaIter (gZero n) 1 < ((gZero n).numVerts : ℝ) * tol := by
    rw [d1]
    exact mul_pos hncast htol
  have hval : validGraph (gZero n) := ⟨hn, by simp [gZero]⟩
  have hsol : solve (gZero n) maxIter tol =
      .ok ((round (gZero n) (hubIter (gZero n) 1)).1, (round (gZero n) (hubIter (gZero n) 1)).2.1) := by
    rw [solve, if_pos hval]
    exact loop_first_success (gZero n) tol 1 maxIter (initHub (gZero n)) (by omega)
      (fun k hk => by interval_cases k; exact hfail) hsucc
  refine ⟨d0, hfail, d1, hsucc, hsol, ?_, ?_⟩
  · intro v
    rw [hsol]
    exact hs1 v
  · intro v
    rw [hsol]
    exact hs2 v

/-! ### Regular graphs -/

theorem list_sum_const_z : ∀ (l : List ℕ) (c : ℤ), (l.map (fun _ => c)).sum = l.length * c := by
  intro l c
  induction l with
  | nil => simp
  | cons x xs ih => simp [ih]; ring

theorem sqSumZ_replicate (n : ℕ) (q : ℤ) : sqSumZ (List.replicate n q) = n * q ^ 2 := by
  rw [sqSumZ, List.map_replicate, List.sum_replicate, nsmul_eq_mul]

theorem aStepL_replicate (g : Graph) (hval : validGraph g) (d : ℕ) (hreg : regularG g d) :
    aStepL g (List.replicate g.numVerts (1 : ℤ)) = List.replicate g.numVerts (d : ℤ) := by
  apply List.ext_getElem
  · rw [aStepL_length, List.length_replicate]
  intro i h1 h2
  simp only [aStepL] at h1 ⊢
  rw [List.length_map, List.length_range] at h1
  rw [List.getElem_map, List.getElem_range, List.getElem_replicate]
  have hmap : (inNbrs g i).map (fun u => (List.replicate g.numVerts (1 : ℤ)).getD u 0) =
      (inNbrs g i).map (fun _ => (1 : ℤ)) := by
    refine List.map_congr_left (fun u hu => ?_)
    have := inNbrs_mem_lt g hval i hu
    rw [List.getD_eq_getElem?_getD]
    simp [List.getElem?_replicate, this]
  rw [hmap, list_sum_const_z, (hreg i h1).1, mul_one]

theorem hStepL_replicate (g : Graph) (hval : validGraph g) (d : ℕ) (hreg : regularG g d) :
    hStepL g (List.replicate g.numVerts ((d : ℤ))) = List.replicate g.numVerts ((d : ℤ) ^ 2) := by
  apply List.ext_getElem
  · rw [hStepL_length, List.length_replicate]
  intro i h1 h2
  simp only [hStepL] at h1 ⊢
  rw [List.length_map, List.length_range] at h1
  rw [List.getElem_map, List.getElem_range, List.getElem_replicate]
  have hmap : (outNbrs g i).map (fun u => (List.replicate g.numVerts ((d : ℤ))).getD u 0) =
      (outNbrs g i).map (fun _ => (d : ℤ)) := by
    refine List.map_congr_left (fun u hu => ?_)
    have hu2 : u < g.numVerts := by
      simp only [outNbrs, List.mem_map, List.mem_filter] at hu
      obtain ⟨e, ⟨he, _⟩, rfl⟩ := hu
      exact (hval.2 e he).2
    rw [List.getD_eq_getElem?_getD]
    simp [List.getElem?_replicate, hu2]
  rw [hmap, list_sum_const_z, (hreg i h1).2]
  ring

/-- On a `d`-regular valid graph, a round applied to a positive constant hub
vector yields hub and authority vectors both constantly `1/√N` on range. -/
theorem round_regular (g : Graph) (hval : validGraph g) (d : ℕ) (hreg : regularG g d)
    (hn : 1 ≤ g.numVerts) (hd : 1 ≤ d) (hub : ℕ → ℝ) (c : ℝ) (hc : 0 < c)
    (hhub : ∀ v < g.numVerts, hub v = c) :
    (∀ v < g.numVerts, (round g hub).1 v = 1 / Real.sqrt (g.numVerts : ℝ)) ∧
    (∀ v < g.numVerts, (round g hub).2.1 v = 1 / Real.sqrt (g.numVerts : ℝ)) := by
  have hdc : (0 : ℚ) < (d : ℤ) := by exact_mod_cast hd
  have hnc : (0 : ℤ) < (g.numVerts : ℤ) := by exact_mod_cast hn
  have hstep : hStepL g (aStepL g (List.replicate g.numVerts (1 : ℤ))) =
      List.replicate g.numVerts ((d : ℤ) ^ 2) := by
    rw [aStepL_replicate g hval d hreg, hStepL_replicate g hval d hreg]
  have hT : 0 < sqSumZ (aStepL g (List.replicate g.numVerts (1 : ℤ))) := by
    rw [aStepL_replicate g hval d hreg, sqSumZ_replicate]
    positivity
  have hS : 0 < sqSumZ (List.replicate g.numVerts ((d : ℤ) ^ 2)) := by
    rw [sqSumZ_replicate]
    positivity
  have hhub2 : ∀ v < g.numVerts,
      hub v = ((List.replicate g.numVerts (1 : ℤ)).getD v 0 : ℝ) * c := by
    intro v hv
    rw [List.getD_eq_getElem?_getD]
    simp [List.getElem?_replicate, hv, hhub v hv]
  obtain ⟨h1, h2, _⟩ := round_shadow g hval (List.replicate g.numVerts (1 : ℤ))
    (List.replicate g.numVerts ((d : ℤ) ^ 2)) (List.length_replicate _ _) hstep hT hS hub c hc hhub2
  have hsqn : (0 : ℝ) < Real.sqrt (g.numVerts : ℝ) := by
    apply Real.sqrt_pos.2
    exact_mod_cast hn
  have hdr : (0 : ℝ) < (d : ℝ) := by exact_mod_cast hd
  constructor
  · intro v hv
    rw [h1 v, List.getD_eq_getElem?_getD]
    simp only [List.getElem?_replicate, hv, if_pos, Option.getD_some]
    rw [sqSumZ_replicate]
    have hcast : (((g.numVerts : ℤ) * ((d : ℤ) ^ 2) ^ 2 : ℤ) : ℝ) =
        (g.numVerts : ℝ) * ((d : ℝ) ^ 2) ^ 2 := by push_cast; ring
    rw [hcast, Real.sqrt_mul (by positivity) (((d : ℝ) ^ 2) ^ 2),
      Real.sqrt_sq (by positivity)]
    push_cast
    rw [one_div, mul_inv, ← mul_assoc, mul_comm ((d:ℝ)^2), mul_assoc]
    rw [mul_inv_cancel₀ (by positivity : ((d:ℝ)^2) ≠ 0), mul_one, one_div]
  · intro v hv
    rw [h2 v, aStepL_replicate g hval d hreg, List.getD_eq_getElem?_getD]
    simp only [List.getElem?_replicate, hv, if_pos, Option.getD_some]
    rw [sqSumZ_replicate]
    have hcast : (((g.numVerts : ℤ) * (d : ℤ) ^ 2 : ℤ) : ℝ) =
        (g.numVerts : ℝ) * (d : ℝ) ^ 2 := by push_cast; ring
    rw [hcast, Real.sqrt_mul (by positivity) ((d : ℝ) ^ 2),
      Real.sqrt_sq (by positivity)]
    push_cast
    rw [one_div, mul_inv, ← mul_assoc, mul_comm ((d : ℝ)), mul_assoc]
    rw [mul_inv_cancel₀ hdr.ne', mul_one, one_div]

theorem loop_regular (g : Graph) (hval : validGraph g) (d : ℕ) (hreg : regularG g d)
    (hn : 1 ≤ g.numVerts) (hd : 1 ≤ d) (tol : ℝ) :
    ∀ (fuel : ℕ) (hub : ℕ → ℝ) (c : ℝ), 0 < c → (∀ v < g.numVerts, hub v = c) →
      ∀ h a, loop g tol hub fuel = .ok (h, a) → ∀ v < g.numVerts, h v = a v := by
  intro fuel
  induction fuel with
  | zero =>
    intro hub c hc hhub h a hloop
    rw [loop_zero] at hloop
    exact Except.noConfusion hloop
  | succ f ih =>
    intro hub c hc hhub h a hloop
    rw [loop_succ] at hloop
    obtain ⟨hr1, hr2⟩ := round_regular g hval d hreg hn hd hub c hc hhub
    by_cases h1 : (round g hub).2.2 < g.numVerts * tol
    · rw [if_pos h1] at hloop
      have hp := Except.ok.inj hloop
      have hfst : (round g hub).1 = h := congrArg Prod.fst hp
      have hsnd : (round g hub).2.1 = a := congrArg Prod.snd hp
      intro v hv
      rw [← hfst, ← hsnd, hr1 v hv, hr2 v hv]
    · rw [if_neg h1] at hloop
      by_cases h2 : f = 0
      · rw [if_pos h2] at hloop
        exact Except.noConfusion hloop
      · rw [if_neg h2] at hloop
        have hpos : (0 : ℝ) < 1 / Real.sqrt (g.numVerts : ℝ) := by
          apply div_pos one_pos
          apply Real.sqrt_pos.2
          exact_mod_cast hn
        exact ih ((round g hub).1) (1 / Real.sqrt (g.numVerts : ℝ)) hpos hr1 h a hloop

theorem deltaIter_nonneg (g : Graph) (k : ℕ) : 0 ≤ deltaIter g k := by
  show 0 ≤ ∑ v ∈ Finset.range g.numVerts,
    |normalize g (hubUpdate g (authUpdate g (hubIter g k))) v - hubIter g k v|
  exact Finset.sum_nonneg (fun v _ => abs_nonneg _)

theorem gStar_numVerts : gStar.numVerts = 3 := rfl

theorem gC2_numVerts : gC2.numVerts = 2 := rfl

theorem gK_numVerts : gK.numVerts = 34 := rfl

/-- A vector in shadow form with positive direction norm has unit L2 norm. -/
theorem l2norm_shadow (g : Graph) (X : List ℤ) (hX : X.length = g.numVerts)
    (hS : 0 < sqSumZ X) (x : ℕ → ℝ)
    (hx : ∀ v, x v = (X.getD v 0 : ℝ) * (1 / Real.sqrt ((sqSumZ X : ℤ) : ℝ))) :
    l2norm g x = 1 := by
  have hSc : (0 : ℝ) < ((sqSumZ X : ℤ) : ℝ) := by exact_mod_cast hS
  have hsum := sumSq_shadow g X hX (1 / Real.sqrt ((sqSumZ X : ℤ) : ℝ)) x hx
  rw [l2norm, hsum, div_pow, one_pow, Real.sq_sqrt hSc.le, mul_one_div,
    div_self hSc.ne', Real.sqrt_one]

/-! ### Certified star-graph run -/

theorem star_step1 :
    (∀ v, hubIter gStar 1 v =
      ((([2, 2, 2] : List ℤ).getD v 0 : ℝ)) * (1 / Real.sqrt ((sqSumZ [2, 2, 2] : ℤ) : ℝ)))
    ∧ ¬ (deltaIter gStar 0 < (gStar.numVerts : ℝ) * (1 / 100000)) := by
  have hres := step_cert gStar (by decide) (List.replicate 3 1) [2, 2, 2] (initHub gStar)
      (1 / (gStar.numVerts : ℝ))
      333333333333333333333333333333 333333333333333333333333333334
      288675134594812882254574390250 288675134594812882254574390252
      (1/100000) 30000000000000000000000000
      (by decide) (by decide) (by decide) (by decide)
      (by rw [gStar_numVerts]; norm_num)
      (initHub_shadow gStar)
      (by rw [gStar_numVerts, SCALE]; norm_num) (by rw [gStar_numVerts, SCALE]; norm_num)
      (by decide) (by decide) (by decide) (by decide)
      (by decide) (by decide)
      (by rw [gStar_numVerts, SCALE]; norm_num)
  exact ⟨hres.1, hres.2.2.1 (by decide)⟩

theorem star_step2 :
    (∀ v, hubIter gStar 2 v =
      ((([4, 4, 4] : List ℤ).getD v 0 : ℝ)) * (1 / Real.sqrt ((sqSumZ [4, 4, 4] : ℤ) : ℝ)))
    ∧ (∀ v, (round gStar (hubIter gStar 1)).2.1 v =
      (((aStepL gStar [2, 2, 2]).getD v 0 : ℝ)) *
        (1 / Real.sqrt ((sqSumZ (aStepL gStar [2, 2, 2]) : ℤ) : ℝ)))
    ∧ (deltaIter gStar 1 < (gStar.numVerts : ℝ) * (1 / 100000)) := by
  obtain ⟨h1, _⟩ := star_step1
  have hres := step_cert gStar (by decide) [2, 2, 2] [4, 4, 4] (hubIter gStar 1)
      (1 / Real.sqrt ((sqSumZ [2, 2, 2] : ℤ) : ℝ))
      288675134594812882254574390250 288675134594812882254574390252
      144337567297406441127287195125 144337567297406441127287195126
      (1/100000) 30000000000000000000000000
      (by decide) (by decide) (by decide) (by decide)
      (inv_sqrt_pos _ (by decide))
      (fun v _ => h1 v)
      (inv_sqrt_bounds (sqSumZ [2, 2, 2])
        288675134594812882254574390250 288675134594812882254574390252
        (by decide) (by decide) (by decide) (by decide) (by decide)).1
      (inv_sqrt_bounds (sqSumZ [2, 2, 2])
        288675134594812882254574390250 288675134594812882254574390252
        (by decide) (by decide) (by decide) (by decide) (by decide)).2
      (by decide) (by decide) (by decide) (by decide)
      (by decide) (by decide)
      (by rw [gStar_numVerts, SCALE]; norm_num)
  exact ⟨hres.1, hres.2.1, hres.2.2.2 (by decide)⟩

theorem star_solve :
    solve gStar 100 (1/100000 : ℝ) =
      .ok ((round gStar (hubIter gStar 1)).1, (round gStar (hubIter gStar 1)).2.1)
  ∧ 1/10 < |okHub (solve gStar 100 (1/100000 : ℝ)) 0 - okAuth (solve gStar 100 (1/100000 : ℝ)) 0| := by
  have hsol : solve gStar 100 (1/100000 : ℝ) =
      .ok ((round gStar (hubIter gStar 1)).1, (round gStar (hubIter gStar 1)).2.1) := by
    rw [solve, if_pos (by decide)]
    exact loop_first_success gStar (1/100000) 1 100 (initHub gStar) (by omega)
      (fun k hk => by interval_cases k; exact star_step1.2) star_step2.2.2
  refine ⟨hsol, ?_⟩
  have hhub0 : okHub (solve gStar 100 (1/100000 : ℝ)) 0 =
      (4 : ℝ) * (1 / Real.sqrt ((48 : ℤ) : ℝ)) := by
    rw [hsol]
    have h2 := star_step2.1 0
    rw [show (hubIter gStar 2) 0 = (round gStar (hubIter gStar 1)).1 0 from rfl] at h2
    rw [show okHub (Except.ok ((round gStar (hubIter gStar 1)).1,
      (round gStar (hubIter gStar 1)).2.1)) = (round gStar (hubIter gStar 1)).1 from rfl]
    rw [h2, show sqSumZ [4, 4, 4] = 48 from by decide]
    norm_num
  have hauth0 : okAuth (solve gStar 100 (1/100000 : ℝ)) 0 =
      (4 : ℝ) * (1 / Real.sqrt ((24 : ℤ) : ℝ)) := by
    rw [hsol]
    have h2 := star_step2.2.1 0
    rw [show okAuth (Except.ok ((round gStar (hubIter gStar 1)).1,
      (round gStar (hubIter gStar 1)).2.1)) = (round gStar (hubIter gStar 1)).2.1 from rfl]
    rw [h2, show aStepL gStar [2, 2, 2] = [4, 2, 2] from by decide,
      show sqSumZ [4, 2, 2] = 24 from by decide]
    norm_num
  have hscale : (0 : ℝ) < ((SCALE : ℤ) : ℝ) := by rw [SCALE]; positivity
  obtain ⟨hl24, _⟩ := inv_sqrt_bounds 24
    204124145231931508183107006225 204124145231931508183107006226
    (by decide) (by decide) (by decide) (by decide) (by decide)
  obtain ⟨_, hu48⟩ := inv_sqrt_bounds 48
    144337567297406441127287195125 144337567297406441127287195126
    (by decide) (by decide) (by decide) (by decide) (by decide)
  have hgapZ : (1/10 : ℝ) * ((SCALE : ℤ) : ℝ) <
      4 * ((204124145231931508183107006225 : ℤ) : ℝ)
      - 4 * ((144337567297406441127287195126 : ℤ) : ℝ) := by
    rw [SCALE]; norm_num
  rw [hhub0, hauth0]
  have habs := neg_le_abs ((4 : ℝ) * (1 / Real.sqrt ((48 : ℤ) : ℝ))
    - (4 : ℝ) * (1 / Real.sqrt ((24 : ℤ) : ℝ)))
  have hq1 : 4 * ((204124145231931508183107006225 : ℤ) : ℝ) ≤
      4 * (1 / Real.sqrt ((24 : ℤ) : ℝ)) * ((SCALE : ℤ) : ℝ) := by nlinarith
  have hq2 : 4 * (1 / Real.sqrt ((48 : ℤ) : ℝ)) * ((SCALE : ℤ) : ℝ) ≤
      4 * ((144337567297406441127287195126 : ℤ) : ℝ) := by nlinarith
  have hgap : (1/10 : ℝ) * ((SCALE : ℤ) : ℝ) <
      (4 * (1 / Real.sqrt ((24 : ℤ) : ℝ)) - 4 * (1 / Real.sqrt ((48 : ℤ) : ℝ)))
        * ((SCALE : ℤ) : ℝ) := by
    have hexp : (4 * (1 / Real.sqrt ((24 : ℤ) : ℝ)) - 4 * (1 / Real.sqrt ((48 : ℤ) : ℝ)))
        * ((SCALE : ℤ) : ℝ) = 4 * (1 / Real.sqrt ((24 : ℤ) : ℝ)) * ((SCALE : ℤ) : ℝ)
        - 4 * (1 / Real.sqrt ((48 : ℤ) : ℝ)) * ((SCALE : ℤ) : ℝ) := by ring
    rw [hexp]
    linarith
  have hfinal := (mul_lt_mul_right hscale).mp hgap
  linarith

/-! ### Certified karate-club run -/

set_option maxRecDepth 10000 in
set_option maxHeartbeats 2000000 in
theorem karate_step1 :
    (∀ v, hubIter gK 1 v = ((kW1.getD v 0 : ℝ)) * (1 / Real.sqrt ((sqSumZ kW1 : ℤ) : ℝ)))
    ∧ ¬ (deltaIter gK 0 < (gK.numVerts : ℝ) * (1 / 100000)) := by
  have hres := step_cert gK (by decide) (List.replicate 34 1) kW1 (initHub gK)
      (1 / (gK.numVerts : ℝ))
      29411764705882352941176470588 29411764705882352941176470589
      4374786392598071069749851569 4374786392598071069749851570
      (1/100000) 340000000000000000000000000
      (by decide) (by decide) (by decide) (by decide)
      (by rw [gK_numVerts]; norm_num)
      (initHub_shadow gK)
      (by rw [gK_numVerts, SCALE]; norm_num) (by rw [gK_numVerts, SCALE]; norm_num)
      (by decide) (by decide) (by decide) (by decide)
      (by decide) (by decide)
      (by rw [gK_numVerts, SCALE]; norm_num)
  exact ⟨hres.1, hres.2.2.1 (by decide)⟩

set_option maxRecDepth 10000 in
set_option maxHeartbeats 2000000 in
theorem karate_step2 :
    (∀ v, hubIter gK 2 v = ((kW2.getD v 0 : ℝ)) * (1 / Real.sqrt ((sqSumZ kW2 : ℤ) : ℝ)))
    ∧ ¬ (deltaIter gK 1 < (gK.numVerts : ℝ) * (1 / 100000)) := by
  obtain ⟨hprev, _⟩ := karate_step1
  have hres := step_cert gK (by decide) kW1 kW2 (hubIter gK 1)
      (1 / Real.sqrt ((sqSumZ kW1 : ℤ) : ℝ))
      4374786392598071069749851569 4374786392598071069749851570
      97906735982689508378265771 97906735982689508378265772
      (1/100000) 340000000000000000000000000
      (by decide) (by decide) (by decide) (by decide)
      (inv_sqrt_pos _ (by decide))
      (fun v _ => hprev v)
      (inv_sqrt_bounds (sqSumZ kW1)
        4374786392598071069749851569 4374786392598071069749851570
        (by decide) (by decide) (by decide) (by decide) (by decide)).1
      (inv_sqrt_bounds (sqSumZ kW1)
        4374786392598071069749851569 4374786392598071069749851570
        (by decide) (by decide) (by decide) (by decide) (by decide)).2
      (by decide) (by decide) (by decide) (by decide)
      (by decide) (by decide)
      (by rw [gK_numVerts, SCALE]; norm_num)
  exact ⟨hres.1, hres.2.2.1 (by decide)⟩

set_option maxRecDepth 10000 in
set_option maxHeartbeats 2000000 in
theorem karate_step3 :
    (∀ v, hubIter gK 3 v = ((kW3.getD v 0 : ℝ)) * (1 / Real.sqrt ((sqSumZ kW3 : ℤ) : ℝ)))
    ∧ ¬ (deltaIter gK 2 < (gK.numVerts : ℝ) * (1 / 100000)) := by
  obtain ⟨hprev, _⟩ := karate_step2
  have hres := step_cert gK (by decide) kW2 kW3 (hubIter gK 2)
      (1 / Real.sqrt ((sqSumZ kW2 : ℤ) : ℝ))
      97906735982689508378265771 97906735982689508378265772
      2169159266470786387408398 2169159266470786387408399
      (1/100000) 340000000000000000000000000
      (by decide) (by decide) (by decide) (by decide)
      (inv_sqrt_pos _ (by decide))
      (fun v _ => hprev v)
      (inv_sqrt_bounds (sqSumZ kW2)
        97906735982689508378265771 97906735982689508378265772
        (by decide) (by decide) (by decide) (by decide) (by decide)).1
      (inv_sqrt_bounds (sqSumZ kW2)
        97906735982689508378265771 97906735982689508378265772
        (by decide) (by decide) (by decide) (by decide) (by decide)).2
      (by decide) (by decide) (by decide) (by decide)
      (by decide) (by decide)
      (by rw [gK_numVerts, SCALE]; norm_num)
  exact ⟨hres.1, hres.2.2.1 (by decide)⟩

set_option maxRecDepth 10000 in
set_option maxHeartbeats 2000000 in
theorem karate_step4 :
    (∀ v, hubIter gK 4 v = ((kW4.getD v 0 : ℝ)) * (1 / Real.sqrt ((sqSumZ kW4 : ℤ) : ℝ)))
    ∧ ¬ (deltaIter gK 3 < (gK.numVerts : ℝ) * (1 / 100000)) := by
  obtain ⟨hprev, _⟩ := karate_step3
  have hres := step_cert gK (by decide) kW3 kW4 (hubIter gK 3)
      (1 / Real.sqrt ((sqSumZ kW3 : ℤ) : ℝ))
      2169159266470786387408398 2169159266470786387408399
      47973575592338597622306 47973575592338597622307
      (1/100000) 340000000000000000000000000
      (by decide) (by decide) (by decide) (by decide)
      (inv_sqrt_pos _ (by decide))
      (fun v _ => hprev v)
      (inv_sqrt_bounds (sqSumZ kW3)
        2169159266470786387408398 2169159266470786387408399
        (by decide) (by decide) (by decide) (by decide) (by decide)).1
      (inv_sqrt_bounds (sqSumZ kW3)
        2169159266470786387408398 2169159266470786387408399
        (by decide) (by decide) (by decide) (by decide) (by decide)).2
      (by decide) (by decide) (by decide) (by decide)
      (by decide) (by decide)
      (by rw [gK_numVerts, SCALE]; norm_num)
  exact ⟨hres.1, hres.2.2.1 (by decide)⟩

set_option maxRecDepth 10000 in
set_option maxHeartbeats 2000000 in
theorem karate_step5 :
    (∀ v, hubIter gK 5 v = ((kW5.getD v 0 : ℝ)) * (1 / Real.sqrt ((sqSumZ kW5 : ℤ) : ℝ)))
    ∧ ¬ (deltaIter gK 4 < (gK.numVerts : ℝ) * (1 / 100000)) := by
  obtain ⟨hprev, _⟩ := karate_step4
  have hres := step_cert gK (by decide) kW4 kW5 (hubIter gK 4)
      (1 / Real.sqrt ((sqSumZ kW4 : ℤ) : ℝ))
      47973575592338597622306 47973575592338597622307
      1060630202472955789975 1060630202472955789976
      (1/100000) 340000000000000000000000000
      (by decide) (by decide) (by decide) (by decide)
      (inv_sqrt_pos _ (by decide))
      (fun v _ => hprev v)
      (inv_sqrt_bounds (sqSumZ kW4)
        47973575592338597622306 47973575592338597622307
        (by decide) (by decide) (by decide) (by decide) (by decide)).1
      (inv_sqrt_bounds (sqSumZ kW4)
        47973575592338597622306 47973575592338597622307
        (by decide) (by decide) (by decide) (by decide) (by decide)).2
      (by decide) (by decide) (by decide) (by decide)
      (by decide) (by decide)
      (by rw [gK_numVerts, SCALE]; norm_num)
  exact ⟨hres.1, hres.2.2.1 (by decide)⟩

set_option maxRecDepth 10000 in
set_option maxHeartbeats 2000000 in
theorem karate_step6 :
    (∀ v, hubIter gK 6 v = ((kW6.getD v 0 : ℝ)) * (1 / Real.sqrt ((sqSumZ kW6 : ℤ) : ℝ)))
    ∧ ¬ (deltaIter gK 5 < (gK.numVerts : ℝ) * (1 / 100000)) := by
  obtain ⟨hprev, _⟩ := karate_step5
  have hres := step_cert gK (by decide) kW5 kW6 (hubIter gK 5)
      (1 / Real.sqrt ((sqSumZ kW5 : ℤ) : ℝ))
      1060630202472955789975 1060630202472955789976
      23447500050131425278 23447500050131425279
      (1/100000) 340000000000000000000000000
      (by decide) (by decide) (by decide) (by decide)
      (inv_sqrt_pos _ (by decide))
      (fun v _ => hprev v)
      (inv_sqrt_bounds (sqSumZ kW5)
        1060630202472955789975 1060630202472955789976
        (by decide) (by decide) (by decide) (by decide) (by decide)).1
      (inv_sqrt_bounds (sqSumZ kW5)
        1060630202472955789975 1060630202472955789976
        (by decide) (by decide) (by decide) (by decide) (by decide)).2
      (by decide) (by decide) (by decide) (by decide)
      (by decide) (by decide)
      (by rw [gK_numVerts, SCALE]; norm_num)
  exact ⟨hres.1, hres.2.2.1 (by decide)⟩

set_option maxRecDepth 10000 in
set_option maxHeartbeats 2000000 in
theorem karate_step7 :
    (∀ v, hubIter gK 7 v = ((kW7.getD v 0 : ℝ)) * (1 / Real.sqrt ((sqSumZ kW7 : ℤ) : ℝ)))
    ∧ ¬ (deltaIter gK 6 < (gK.numVerts : ℝ) * (1 / 100000)) := by
  obtain ⟨hprev, _⟩ := karate_step6
  have hres := step_cert gK (by decide) kW6 kW7 (hubIter gK 6)
      (1 / Real.sqrt ((sqSumZ kW6 : ℤ) : ℝ))
      23447500050131425278 23447500050131425279
      518350224642595525 518350224642595526
      (1/100000) 340000000000000000000000000
      (by decide) (by decide) (by decide) (by decide)
      (inv_sqrt_pos _ (by decide))
      (fun v _ => hprev v)
      (inv_sqrt_bounds (sqSumZ kW6)
        23447500050131425278 23447500050131425279
        (by decide) (by decide) (by decide) (by decide) (by decide)).1
      (inv_sqrt_bounds (sqSumZ kW6)
        23447500050131425278 23447500050131425279
        (by decide) (by decide) (by decide) (by decide) (by decide)).2
      (by decide) (by decide) (by decide) (by decide)
      (by decide) (by decide)
      (by rw [gK_numVerts, SCALE]; norm_num)
  exact ⟨hres.1, hres.2.2.1 (by decide)⟩

set_option maxRecDepth 10000 in
set_option maxHeartbeats 2000000 in
theorem karate_step8 :
    (∀ v, hubIter gK 8 v = ((kW8.getD v 0 : ℝ)) * (1 / Real.sqrt ((sqSumZ kW8 : ℤ) : ℝ)))
    ∧ ¬ (deltaIter gK 7 < (gK.numVerts : ℝ) * (1 / 100000)) := by
  obtain ⟨hprev, _⟩ := karate_step7
  have hres := step_cert gK (by decide) kW7 kW8 (hubIter gK 7)
      (1 / Real.sqrt ((sqSumZ kW7 : ℤ) : ℝ))
      518350224642595525 518350224642595526
      11459057156302608 11459057156302609
      (1/100000) 340000000000000000000000000
      (by decide) (by decide) (by decide) (by decide)
      (inv_sqrt_pos _ (by decide))
      (fun v _ => hprev v)
      (inv_sqrt_bounds (sqSumZ kW7)
        518350224642595525 518350224642595526
        (by decide) (by decide) (by decide) (by decide) (by decide)).1
      (inv_sqrt_bounds (sqSumZ kW7)
        518350224642595525 518350224642595526
        (by decide) (by decide) (by decide) (by decide) (by decide)).2
      (by decide) (by decide) (by decide) (by decide)
      (by decide) (by decide)
      (by rw [gK_numVerts, SCALE]; norm_num)
  exact ⟨hres.1, hres.2.2.1 (by decide)⟩

set_option maxRecDepth 10000 in
set_option maxHeartbeats 2000000 in
theorem karate_step9 :
    (∀ v, hubIter gK 9 v = ((kW9.getD v 0 : ℝ)) * (1 / Real.sqrt ((sqSumZ kW9 : ℤ) : ℝ)))
    ∧ ¬ (deltaIter gK 8 < (gK.numVerts : ℝ) * (1 / 100000)) := by
  obtain ⟨hprev, _⟩ := karate_step8
  have hres := step_cert gK (by decide) kW8 kW9 (hubIter gK 8)
      (1 / Real.sqrt ((sqSumZ kW8 : ℤ) : ℝ))
      11459057156302608 11459057156302609
      253322783907974 253322783907975
      (1/100000) 340000000000000000000000000
      (by decide) (by decide) (by decide) (by decide)
      (inv_sqrt_pos _ (by decide))
      (fun v _ => hprev v)
      (inv_sqrt_bounds (sqSumZ kW8)
        11459057156302608 11459057156302609
        (by decide) (by decide) (by decide) (by decide) (by decide)).1
      (inv_sqrt_bounds (sqSumZ kW8)
        11459057156302608 11459057156302609
        (by decide) (by decide) (by decide) (by decide) (by decide)).2
      (by decide) (by decide) (by decide) (by decide)
      (by decide) (by decide)
      (by rw [gK_numVerts, SCALE]; norm_num)
  exact ⟨hres.1, hres.2.2.1 (by decide)⟩

set_option maxRecDepth 10000 in
set_option maxHeartbeats 2000000 in
theorem karate_step10 :
    (∀ v, hubIter gK 10 v = ((kW10.getD v 0 : ℝ)) * (1 / Real.sqrt ((sqSumZ kW10 : ℤ) : ℝ)))
    ∧ ¬ (deltaIter gK 9 < (gK.numVerts : ℝ) * (1 / 100000)) := by
  obtain ⟨hprev, _⟩ := karate_step9
  have hres := step_cert gK (by decide) kW9 kW10 (hubIter gK 9)
      (1 / Real.sqrt ((sqSumZ kW9 : ℤ) : ℝ))
      253322783907974 253322783907975
      5600148885900 5600148885901
      (1/100000) 340000000000000000000000000
      (by decide) (by decide) (by decide) (by decide)
      (inv_sqrt_pos _ (by decide))
      (fun v _ => hprev v)
      (inv_sqrt_bounds (sqSumZ kW9)
        253322783907974 253322783907975
        (by decide) (by decide) (by decide) (by decide) (by decide)).1
      (inv_sqrt_bounds (sqSumZ kW9)
        253322783907974 253322783907975
        (by decide) (by decide) (by decide) (by decide) (by decide)).2
      (by decide) (by decide) (by decide) (by decide)
      (by decide) (by decide)
      (by rw [gK_numVerts, SCALE]; norm_num)
  exact ⟨hres.1, hres.2.2.1 (by decide)⟩

set_option maxRecDepth 10000 in
set_option maxHeartbeats 2000000 in
theorem karate_step11 :
    (∀ v, hubIter gK 11 v = ((kW11.getD v 0 : ℝ)) * (1 / Real.sqrt ((sqSumZ kW11 : ℤ) : ℝ)))
    ∧ (∀ v, (round gK (hubIter gK 10)).2.1 v =
      (((aStepL gK kW10).getD v 0 : ℝ)) *
        (1 / Real.sqrt ((sqSumZ (aStepL gK kW10) : ℤ) : ℝ)))
    ∧ (deltaIter gK 10 < (gK.numVerts : ℝ) * (1 / 100000)) := by
  obtain ⟨hprev, _⟩ := karate_step10
  have hres := step_cert gK (by decide) kW10 kW11 (hubIter gK 10)
      (1 / Real.sqrt ((sqSumZ kW10 : ℤ) : ℝ))
      5600148885900 5600148885901
      123801208929 123801208930
      (1/100000) 340000000000000000000000000
      (by decide) (by decide) (by decide) (by decide)
      (inv_sqrt_pos _ (by decide))
      (fun v _ => hprev v)
      (inv_sqrt_bounds (sqSumZ kW10)
        5600148885900 5600148885901
        (by decide) (by decide) (by decide) (by decide) (by decide)).1
      (inv_sqrt_bounds (sqSumZ kW10)
        5600148885900 5600148885901
        (by decide) (by decide) (by decide) (by decide) (by decide)).2
      (by decide) (by decide) (by decide) (by decide)
      (by decide) (by decide)
      (by rw [gK_numVerts, SCALE]; norm_num)
  exact ⟨hres.1, hres.2.1, hres.2.2.2 (by decide)⟩

set_option maxRecDepth 10000 in
set_option maxHeartbeats 2000000 in
theorem karate_solve :
    solve gK 100 (1/100000 : ℝ) =
      .ok ((round gK (hubIter gK 10)).1, (round gK (hubIter gK 10)).2.1)
  ∧ l2norm gK (okHub (solve gK 100 (1/100000 : ℝ))) = 1
  ∧ l2norm gK (okAuth (solve gK 100 (1/100000 : ℝ))) = 1 := by
  have hsol : solve gK 100 (1/100000 : ℝ) =
      .ok ((round gK (hubIter gK 10)).1, (round gK (hubIter gK 10)).2.1) := by
    rw [solve, if_pos (by decide)]
    have hfails : ∀ k < 10,
        ¬ ((round gK (iterFrom gK (initHub gK) k)).2.2 < (gK.numVerts : ℝ) * (1/100000)) := by
      intro k hk
      interval_cases k
      · exact karate_step1.2
      · exact karate_step2.2
      · exact karate_step3.2
      · exact karate_step4.2
      · exact karate_step5.2
      · exact karate_step6.2
      · exact karate_step7.2
      · exact karate_step8.2
      · exact karate_step9.2
      · exact karate_step10.2
    exact loop_first_success gK (1/100000) 10 100 (initHub gK) (by omega) hfails
      karate_step11.2.2
  refine ⟨hsol, ?_, ?_⟩
  · rw [hsol]
    rw [show okHub (Except.ok ((round gK (hubIter gK 10)).1,
      (round gK (hubIter gK 10)).2.1)) = (round gK (hubIter gK 10)).1 from rfl]
    exact l2norm_shadow gK kW11 (by decide) (by decide) _ (fun v => karate_step11.1 v)
  · rw [hsol]
    rw [show okAuth (Except.ok ((round gK (hubIter gK 10)).1,
      (round gK (hubIter gK 10)).2.1)) = (round gK (hubIter gK 10)).2.1 from rfl]
    exact l2norm_shadow gK (aStepL gK kW10) (aStepL_length gK kW10) (by decide) _
      (fun v => karate_step11.2.1 v)

/-- The undirected 2-cycle converges in the first round at tolerance 1. -/
theorem c2_solve :
    solve gC2 1 (1 : ℝ) =
      .ok ((round gC2 (initHub gC2)).1, (round gC2 (initHub gC2)).2.1) := by
  rw [solve, if_pos (by decide)]
  have hres := step_cert gC2 (by decide) (List.replicate 2 1) [1, 1] (initHub gC2)
      (1 / (gC2.numVerts : ℝ))
      500000000000000000000000000000 500000000000000000000000000001
      707106781186547524400844362104 707106781186547524400844362106
      (1 : ℝ) 2000000000000000000000000000000
      (by decide) (by decide) (by decide) (by decide)
      (by rw [gC2_numVerts]; norm_num)
      (initHub_shadow gC2)
      (by rw [gC2_numVerts, SCALE]; norm_num) (by rw [gC2_numVerts, SCALE]; norm_num)
      (by decide) (by decide) (by decide) (by decide)
      (by decide) (by decide)
      (by rw [gC2_numVerts, SCALE]; norm_num)
  exact loop_first_success gC2 1 0 1 (initHub gC2) (by omega)
    (fun k hk => absurd hk (by omega)) (hres.2.2.2 (by decide))

/-! ### Claims -/

/-- C1: each solver round first sets `authority_new[v]` to the sum of `hub[u]`
over the edges `u -> v` (zero when `v` has no in-neighbors), then sets
`hub_new[v]` to the sum of the just-computed `authority_new[u]` over the edges
`v -> u` (zero when `v` has no out-neighbors). -/
theorem hits_C1_update_rule (g : Graph) (hub : ℕ → ℝ) (v : ℕ) (hv : v < g.numVerts) :
    authUpdate g hub v = ((g.edges.filter (fun e => e.2 == v)).map (fun e => hub e.1)).sum
  ∧ (inNbrs g v = [] → authUpdate g hub v = 0)
  ∧ hubUpdate g (authUpdate g hub) v =
      ((g.edges.filter (fun e => e.1 == v)).map (fun e => authUpdate g hub e.2)).sum
  ∧ (outNbrs g v = [] → hubUpdate g (authUpdate g hub) v = 0)
  ∧ round g hub = (normalize g (hubUpdate g (authUpdate g hub)), normalize g (authUpdate g hub),
      l1dist g (normalize g (hubUpdate g (authUpdate g hub))) hub) := by
  refine ⟨?_, ?_, ?_, ?_, rfl⟩
  · simp only [authUpdate, inNbrs, List.map_map]
    rfl
  · intro hnil
    simp only [authUpdate, hnil, List.map_nil, List.sum_nil]
  · simp only [hubUpdate, outNbrs, List.map_map]
    rfl
  · intro hnil
    simp only [hubUpdate, hnil, List.map_nil, List.sum_nil]

/-- Witness for C1 at the star graph, vertex 0, constant hub 1. -/
theorem hits_C1_update_rule_witness :
    (authUpdate gStar (fun _ => (1 : ℝ)) 0 = 2)
  ∧ (authUpdate gStar (fun _ => (1 : ℝ)) 0 =
      ((gStar.edges.filter (fun e => e.2 == 0)).map (fun e => (fun _ => (1 : ℝ)) e.1)).sum) := by
  constructor
  · show ((inNbrs gStar 0).map (fun _ => (1 : ℝ))).sum = 2
    rw [show inNbrs gStar 0 = [1, 2] from by decide]
    norm_num
  · exact (hits_C1_update_rule gStar (fun _ => 1) 0 (by decide)).1

/-- C2 (amended): whenever solve succeeds, each returned vector has L2 norm 0
or 1 (0 only in the zero-vector edge case); for the karate-club benchmark with
`max_iterations = 100` and `tolerance = 1e-5`, solve succeeds and both norms
are exactly 1. -/
theorem hits_C2_l2_norms :
    (∀ (g : Graph) (maxIter : ℕ) (tol : ℝ) (h a : ℕ → ℝ),
      solve g maxIter tol = .ok (h, a) →
        (l2norm g h = 0 ∨ l2norm g h = 1) ∧ (l2norm g a = 0 ∨ l2norm g a = 1))
  ∧ resultOk (solve gK 100 (1/100000 : ℝ)) = true
  ∧ l2norm gK (okHub (solve gK 100 (1/100000 : ℝ))) = 1
  ∧ l2norm gK (okAuth (solve gK 100 (1/100000 : ℝ))) = 1 := by
  refine ⟨?_, ?_, karate_solve.2.1, karate_solve.2.2⟩
  · intro g maxIter tol h a hsol
    rw [solve] at hsol
    by_cases hval : validGraph g
    · rw [if_pos hval] at hsol
      obtain ⟨x, y, rfl, rfl⟩ := loop_ok_shape g tol maxIter (initHub g) h a hsol
      exact ⟨l2norm_normalize_cases g x, l2norm_normalize_cases g y⟩
    · rw [if_neg hval] at hsol
      exact Except.noConfusion hsol
  · rw [karate_solve.1]
    rfl

/-- Counterexample to C2 as stated: on the one-vertex graph with no edges the
solver succeeds, yet the returned hub vector has L2 norm 0, not 1 (and not
within `1e-6` of 1). -/
theorem hits_C2_counterexample :
    resultOk (solve (gZero 1) 2 (1/2 : ℝ)) = true
  ∧ l2norm (gZero 1) (okHub (solve (gZero 1) 2 (1/2 : ℝ))) = 0
  ∧ ¬ (|l2norm (gZero 1) (okHub (solve (gZero 1) 2 (1/2 : ℝ))) - 1| ≤ 1/1000000) := by
  obtain ⟨d0, hfail, d1, hsucc, hsol, hhub, hauth⟩ :=
    zero_edge_run 1 2 (1/2) (by omega) (by omega) (by norm_num) (by norm_num)
  have hl : l2norm (gZero 1) (okHub (solve (gZero 1) 2 (1/2 : ℝ))) = 0 := by
    have hz : sumSq (gZero 1) (okHub (solve (gZero 1) 2 (1/2 : ℝ))) = 0 :=
      Finset.sum_eq_zero (fun v _ => by rw [hhub v]; ring)
    rw [l2norm, hz, Real.sqrt_zero]
  refine ⟨by rw [hsol]; rfl, hl, ?_⟩
  rw [hl]
  norm_num

/-- Witness for C2 at the karate benchmark. -/
theorem hits_C2_l2_norms_witness :
    l2norm gK ((round gK (hubIter gK 10)).1) = 0 ∨
      l2norm gK ((round gK (hubIter gK 10)).1) = 1 :=
  (hits_C2_l2_norms.1 gK 100 (1/100000) _ _ karate_solve.1).1

/-- C3: the convergence measure of a round is the L1 distance between the new
and old hub vectors, and the round returns success exactly when
`Δ < N * tolerance`; otherwise the loop errors out (last round) or continues. -/
theorem hits_C3_convergence_test (g : Graph) (tol : ℝ) (hub : ℕ → ℝ) (fuel : ℕ) :
    (round g hub).2.2 = ∑ v ∈ Finset.range g.numVerts, |(round g hub).1 v - hub v|
  ∧ ((round g hub).2.2 < g.numVerts * tol →
      loop g tol hub (fuel + 1) = .ok ((round g hub).1, (round g hub).2.1))
  ∧ (¬ ((round g hub).2.2 < g.numVerts * tol) →
      loop g tol hub (fuel + 1) =
        if fuel = 0 then
          .error (.convergence (round g hub).1 (round g hub).2.1 (round g hub).2.2)
        else loop g tol (round g hub).1 fuel) := by
  refine ⟨rfl, ?_, ?_⟩
  · intro h1
    rw [loop_succ, if_pos h1]
  · intro h1
    rw [loop_succ, if_neg h1]

/-- Witness for C3: on the one-vertex no-edge graph with tolerance 2, the first
round has `Δ = 1 < 1 * 2` and the loop succeeds in that round. -/
theorem hits_C3_convergence_test_witness :
    loop (gZero 1) 2 (initHub (gZero 1)) 1 =
      .ok ((round (gZero 1) (initHub (gZero 1))).1, (round (gZero 1) (initHub (gZero 1))).2.1) := by
  apply (hits_C3_convergence_test (gZero 1) 2 (initHub (gZero 1)) 0).2.1
  rw [show (round (gZero 1) (initHub (gZero 1))).2.2 = (1 : ℝ) from zero_edge_delta0 1 (by omega)]
  have : ((gZero 1).numVerts : ℝ) = 1 := by simp [gZero]
  rw [this]
  norm_num

/-- C4: on a valid graph with `max_iterations ≥ 1`, solve raises a convergence
error exactly when every round fails the convergence test, and the error
carries the last computed hub and authority vectors together with the final
`Δ`. -/
theorem hits_C4_convergence_error (g : Graph) (maxIter : ℕ) (tol : ℝ)
    (hval : validGraph g) (hmi : 1 ≤ maxIter) :
    ((∃ h a d, solve g maxIter tol = .error (.convergence h a d)) ↔
      ∀ k < maxIter, ¬ (deltaIter g k < (g.numVerts : ℝ) * tol))
  ∧ (∀ h a d, solve g maxIter tol = .error (.convergence h a d) →
      h = hubIter g maxIter ∧ a = authIter g (maxIter - 1) ∧ d = deltaIter g (maxIter - 1)) := by
  obtain ⟨m, rfl⟩ : ∃ m, maxIter = m + 1 := ⟨maxIter - 1, by omega⟩
  have hsolve : solve g (m + 1) tol = loop g tol (initHub g) (m + 1) := by
    rw [solve, if_pos hval]
  constructor
  · constructor
    · rintro ⟨h, a, d, hsol⟩ k hk
      rw [hsolve] at hsol
      exact loop_conv_all_fail g tol m (initHub g) h a d hsol k hk
    · intro hall
      refine ⟨iterFrom g (initHub g) (m + 1), (round g (iterFrom g (initHub g) m)).2.1,
        (round g (iterFrom g (initHub g) m)).2.2, ?_⟩
      rw [hsolve]
      exact loop_all_fail g tol m (initHub g) hall
  · intro h a d hsol
    rw [hsolve] at hsol
    have hall := loop_conv_all_fail g tol m (initHub g) h a d hsol
    have heq := loop_all_fail g tol m (initHub g) hall
    rw [heq] at hsol
    have hinj := Except.error.inj hsol
    injection hinj with h1 h2 h3
    exact ⟨h1.symm, h2.symm, h3.symm⟩

/-- Witness for C4: with `max_iterations = 1` and `tolerance = 0` the star
graph cannot converge and solve reports a convergence error. -/
theorem hits_C4_convergence_error_witness :
    ∃ h a d, solve gStar 1 (0 : ℝ) = .error (.convergence h a d) := by
  apply (hits_C4_convergence_error gStar 1 0 (by decide) (by omega)).1.mpr
  intro k hk
  interval_cases k
  intro hcon
  rw [mul_zero] at hcon
  exact absurd hcon (not_lt.mpr (deltaIter_nonneg gStar 0))

/-- C5 (amended): on the `N`-vertex graph with no edges (with
`N * tolerance ≤ 1` and at least two allowed rounds) the first round computes
`Δ = 1` and does not converge; the second round has `Δ = 0` and succeeds, with
both returned vectors equal to the zero vector. -/
theorem hits_C5_no_edge_graph (n maxIter : ℕ) (tol : ℝ) (hn : 1 ≤ n) (hmi : 2 ≤ maxIter)
    (htol : 0 < tol) (hbound : (n : ℝ) * tol ≤ 1) :
    deltaIter (gZero n) 0 = 1
  ∧ ¬ (deltaIter (gZero n) 0 < ((gZero n).numVerts : ℝ) * tol)
  ∧ deltaIter (gZero n) 1 = 0
  ∧ deltaIter (gZero n) 1 < ((gZero n).numVerts : ℝ) * tol
  ∧ resultOk (solve (gZero n) maxIter tol) = true
  ∧ (∀ v, okHub (solve (gZero n) maxIter tol) v = 0)
  ∧ (∀ v, okAuth (solve (gZero n) maxIter tol) v = 0) := by
  obtain ⟨d0, hfail, d1, hsucc, hsol, hhub, hauth⟩ :=
    zero_edge_run n maxIter tol hn hmi htol hbound
  exact ⟨d0, hfail, d1, hsucc, by rw [hsol]; rfl, hhub, hauth⟩

/-- Counterexample to C5 as stated: with the default parameters the one-vertex
no-edge graph has first-round `Δ = 1`, the first round does not satisfy the
convergence test, and yet solve succeeds (in the second round). -/
theorem hits_C5_counterexample :
    deltaIter (gZero 1) 0 = 1
  ∧ ¬ (deltaIter (gZero 1) 0 < ((gZero 1).numVerts : ℝ) * (1/100000 : ℝ))
  ∧ resultOk (solve (gZero 1) 100 (1/100000 : ℝ)) = true := by
  obtain ⟨d0, hfail, d1, hsucc, hsol, _, _⟩ :=
    zero_edge_run 1 100 (1/100000) (by omega) (by omega) (by norm_num) (by norm_num)
  exact ⟨d0, hfail, by rw [hsol]; rfl⟩

/-- Witness for C5 at `N = 1`, `max_iterations = 2`, `tolerance = 1/2`. -/
theorem hits_C5_no_edge_graph_witness :
    deltaIter (gZero 1) 0 = 1 ∧ deltaIter (gZero 1) 1 = 0
  ∧ okHub (solve (gZero 1) 2 (1/2 : ℝ)) 0 = 0 := by
  obtain ⟨d0, _, d1, _, _, hhub, _⟩ :=
    hits_C5_no_edge_graph 1 2 (1/2) (by omega) (by omega) (by norm_num) (by norm_num)
  exact ⟨d0, d1, hhub 0⟩

/-- C6 (amended): on an undirected `d`-regular graph (`d ≥ 1`), a successful
solve returns hub and authority vectors that agree at every vertex.  For
general undirected graphs this fails (see the counterexample). -/
theorem hits_C6_undirected_symmetry (g : Graph) (d maxIter : ℕ) (tol : ℝ) (h a : ℕ → ℝ)
    (hval : validGraph g) (hund : undirectedG g) (hreg : regularG g d) (hd : 1 ≤ d)
    (hsol : solve g maxIter tol = .ok (h, a)) :
    ∀ v < g.numVerts, h v = a v := by
  rw [solve, if_pos hval] at hsol
  have hn := hval.1
  have hpos : (0 : ℝ) < 1 / (g.numVerts : ℝ) := by
    have : (0 : ℝ) < (g.numVerts : ℝ) := by exact_mod_cast hn
    positivity
  exact loop_regular g hval d hreg hn hd tol maxIter (initHub g) (1 / (g.numVerts : ℝ))
    hpos (fun v _ => rfl) h a hsol

/-- Counterexample to C6 as stated: the undirected 3-star is a valid undirected
graph on which solve succeeds, yet the returned hub and authority scores of
the center differ by more than `1/10`. -/
theorem hits_C6_counterexample :
    undirectedG gStar
  ∧ validGraph gStar
  ∧ resultOk (solve gStar 100 (1/100000 : ℝ)) = true
  ∧ 1/10 < |okHub (solve gStar 100 (1/100000 : ℝ)) 0 - okAuth (solve gStar 100 (1/100000 : ℝ)) 0| := by
  refine ⟨by decide, by decide, ?_, star_solve.2⟩
  rw [star_solve.1]
  rfl

/-- Witness for C6 on the undirected 2-cycle (1-regular). -/
theorem hits_C6_undirected_symmetry_witness :
    (round gC2 (initHub gC2)).1 0 = (round gC2 (initHub gC2)).2.1 0 :=
  hits_C6_undirected_symmetry gC2 1 1 1 _ _ (by decide) (by decide) (by decide) (by omega)
    c2_solve 0 (by decide)

/-- C7: normalizing a zero-norm score vector leaves it unchanged — it stays
the zero vector on the vertex range, with no division performed. -/
theorem hits_C7_zero_norm_normalize (g : Graph) (x : ℕ → ℝ) (h : l2norm g x = 0) :
    normalize g x = x ∧ (∀ v < g.numVerts, normalize g x v = 0) := by
  refine ⟨normalize_of_norm_zero g x h, fun v hv => ?_⟩
  rw [normalize_of_norm_zero g x h]
  exact l2norm_zero_vanish g x h v hv

/-- Witness for C7 at the zero vector on the one-vertex graph. -/
theorem hits_C7_zero_norm_normalize_witness :
    normalize (gZero 1) (fun _ => (0 : ℝ)) = (fun _ => (0 : ℝ))
  ∧ (∀ v < (gZero 1).numVerts, normalize (gZero 1) (fun _ => (0 : ℝ)) v = 0) :=
  hits_C7_zero_norm_normalize (gZero 1) (fun _ => 0) (by
    have hz : sumSq (gZero 1) (fun _ => (0 : ℝ)) = 0 :=
      Finset.sum_eq_zero (fun v _ => by ring)
    rw [l2norm, hz, Real.sqrt_zero])

/-- C8: solve reports an invalid graph exactly when the graph has zero
vertices or an edge endpoint out of range; the check precedes the iteration,
and no other input produces this error. -/
theorem hits_C8_invalid_graph (g : Graph) (maxIter : ℕ) (tol : ℝ) :
    solve g maxIter tol = .error .invalidGraph ↔
      (g.numVerts = 0 ∨ ∃ e ∈ g.edges, g.numVerts ≤ e.1 ∨ g.numVerts ≤ e.2) := by
  constructor
  · intro h
    by_contra hc
    push_neg at hc
    have hval : validGraph g := by
      refine ⟨by omega, fun e he => ?_⟩
      have := hc.2 e he
      omega
    rw [solve, if_pos hval] at h
    exact loop_ne_invalid g tol maxIter (initHub g) h
  · intro h
    have hnval : ¬ validGraph g := by
      rintro ⟨h1, h2⟩
      rcases h with h0 | ⟨e, he, hor⟩
      · omega
      · have := h2 e he
        omega
    rw [solve, if_neg hnval]

/-- C9: the solver is a deterministic function of the graph representation;
two invocations on equal representations produce identical results, and the
neighbor lists (hence summation order) are fixed by the edge list. -/
theorem hits_C9_deterministic (g g2 : Graph) (maxIter : ℕ) (tol : ℝ)
    (hN : g.numVerts = g2.numVerts) (hE : g.edges = g2.edges) :
    solve g maxIter tol = solve g2 maxIter tol
  ∧ (∀ v, inNbrs g v = inNbrs g2 v) ∧ (∀ v, outNbrs g v = outNbrs g2 v) := by
  obtain ⟨n1, e1⟩ := g
  obtain ⟨n2, e2⟩ := g2
  simp only at hN hE
  subst hN
  subst hE
  exact ⟨rfl, fun _ => rfl, fun _ => rfl⟩

/-- Witness for C9 at the star graph. -/
theorem hits_C9_deterministic_witness :
    solve gStar 1 1 = solve gStar 1 1 ∧ (∀ v, inNbrs gStar v = inNbrs gStar v) :=
  ⟨(hits_C9_deterministic gStar gStar 1 1 rfl rfl).1,
   (hits_C9_deterministic gStar gStar 1 1 rfl rfl).2.1⟩

/-- C10: the threshold printers emit exactly one line per row whose score
meets the threshold, in row order (the filtered rows form a sublist), and
with the threshold equal to the column maximum they emit exactly the rows
attaining the maximum — at least one for a nonempty dataframe. -/
theorem hits_C10_threshold_printing (df : List DFRow) (t m : ℚ)
    (hmax : ∀ r ∈ df, r.hubs ≤ m) (hmem : ∃ r ∈ df, r.hubs = m) :
    print_hub_threshold df t = (df.filter (fun r => t ≤ r.hubs)).map hubLine
  ∧ print_authorities_threshold df t = (df.filter (fun r => t ≤ r.authorities)).map authLine
  ∧ (print_hub_threshold df t).length = (df.filter (fun r => t ≤ r.hubs)).length
  ∧ (df.filter (fun r => t ≤ r.hubs)).Sublist df
  ∧ print_hub_threshold df m = (df.filter (fun r => r.hubs = m)).map hubLine
  ∧ print_hub_threshold df m ≠ [] := by
  refine ⟨rfl, rfl, by rw [print_hub_threshold, List.length_map], List.filter_sublist df, ?_, ?_⟩
  · rw [print_hub_threshold]
    congr 1
    refine List.filter_congr (fun r hr => ?_)
    rw [decide_eq_decide]
    constructor
    · intro hle
      exact le_antisymm (hmax r hr) hle
    · intro he
      rw [he]
  · rw [print_hub_threshold]
    obtain ⟨r, hr, hrm⟩ := hmem
    have hmem2 : r ∈ df.filter (fun r => m ≤ r.hubs) := by
      rw [List.mem_filter]
      exact ⟨hr, by simp [hrm]⟩
    intro hcon
    rw [List.map_eq_nil_iff] at hcon
    rw [hcon] at hmem2
    exact absurd hmem2 (List.not_mem_nil r)

/-- Witness for C10 on a concrete three-row dataframe with maximum hub score
`3/4` attained twice. -/
theorem hits_C10_threshold_printing_witness :
    (print_hub_threshold dfW (3/4)).length = (dfW.filter (fun r => (3/4 : ℚ) ≤ r.hubs)).length
  ∧ print_hub_threshold dfW (3/4) ≠ [] := by
  have hthm := hits_C10_threshold_printing dfW (3/4) (3/4)
    (by
      intro r hr
      simp only [dfW, List.mem_cons, List.not_mem_nil, or_false] at hr
      rcases hr with rfl | rfl | rfl <;> norm_num)
    ⟨⟨1, 3/4, 1/3⟩, by simp [dfW], rfl⟩
  exact ⟨hthm.2.2.1, hthm.2.2.2.2.2⟩

end HITS
